import Mathlib

/-!
Verification of the VNDB distribution-analysis script
(src/vndb_distribution_analysis.py).

The script is a sequential reporting pipeline: it queries an HTTP API with
JSON filter expressions, aggregates vote-count buckets, fetches the top-500
records page by page, computes order statistics, and persists a summary as
JSON.  This development shallowly embeds the script:

* JSON values are the inductive type `Json`; Python dict/list literals from
  the script become `Json.obj` / `Json.arr` values.  Python floats produced
  by `numpy` are modelled as exact rationals (`Json.rat`); all floats the
  script serializes are medians/means of machine integers.
* The HTTP layer is modelled by an oracle: each call site receives the
  response (`Option Json`; `none` is the null that `query_vndb` returns on a
  non-200 status) from a function supplied as a parameter.
* Python truthiness tests (`if result:`, `if max_votes:`, `if vn.get(...)`)
  are modelled exactly: `None`, `0`, empty strings/lists/dicts are falsy.
* `time.sleep` and `print` are modelled as entries of an effect trace.
-/

/-- JSON values, as produced and consumed by the script.  Floats are
modelled as exact rationals (`rat`); integers separately (`int`), matching
the int/float distinction Python's json module preserves. -/
inductive Json where
  | null : Json
  | bool (b : Bool) : Json
  | int (n : ℤ) : Json
  | rat (q : ℚ) : Json
  | str (s : String) : Json
  | arr (elems : List Json) : Json
  | obj (fields : List (String × Json)) : Json

/-- Python truthiness of a JSON value: `None`, `False`, `0`, `""`, `[]`,
`{}` are falsy, everything else truthy. -/
def Json.truthy : Json → Bool
  | .null => false
  | .bool b => b
  | .int n => n ≠ 0
  | .rat q => q ≠ 0
  | .str s => !s.isEmpty
  | .arr xs => !xs.isEmpty
  | .obj fs => !fs.isEmpty

/-- Python truthiness of `query_vndb`'s return value (`None` or a JSON
value): `if result:`. -/
def pyTruthyOpt : Option Json → Bool
  | none => false
  | some j => j.truthy

/-- Dictionary lookup: first binding of the key, as in a Python dict whose
keys are unique. -/
def Json.lookup (j : Json) (key : String) : Option Json :=
  match j with
  | .obj fs => fs.lookup key
  | _ => none

/-- Python's `dict.get(key, default)`. -/
def Json.getD (j : Json) (key : String) (default : Json) : Json :=
  (j.lookup key).getD default

/-- Python's `key in dict`. -/
def Json.hasKey (j : Json) (key : String) : Bool :=
  (j.lookup key).isSome

/-- Python truthiness of an optional integer bound (`if max_votes:` where
`max_votes` is `None` or an int): truthy iff present and nonzero. -/
def pyTruthyOptInt : Option ℤ → Bool
  | none => false
  | some n => n ≠ 0

/-- The script's filter-expression grammar: nested JSON arrays of the shapes
`[field, op, intValue]`, `[field, op, strValue]`, `["and", f, g]` and
`["and", f, g, h]` (the only shapes the script constructs). -/
inductive VnFilter where
  | cmpI (field : String) (op : String) (value : ℤ) : VnFilter
  | cmpS (field : String) (op : String) (value : String) : VnFilter
  | and2 (a b : VnFilter) : VnFilter
  | and3 (a b c : VnFilter) : VnFilter
deriving DecidableEq

/-- Evaluation of a filter against a record, given by its integer fields
(valuation `fi`, e.g. `votecount`, `length`) and its string fields
(valuation `fs`, e.g. `olang`).  Only the operators the script uses are
given meaning; an unknown operator selects nothing. -/
def VnFilter.eval (fi : String → ℤ) (fs : String → String) : VnFilter → Bool
  | .cmpI field op value =>
      match op with
      | ">" => fi field > value
      | "<=" => fi field ≤ value
      | ">=" => fi field ≥ value
      | "=" => fi field = value
      | _ => false
  | .cmpS field op value =>
      match op with
      | "=" => fs field = value
      | _ => false
  | .and2 a b => a.eval fi fs && b.eval fi fs
  | .and3 a b c => a.eval fi fs && b.eval fi fs && c.eval fi fs

/-- The vote-count bucket triples (lower, upper-or-`None`, label) declared
at lines 35-49 of the script. -/
def votecount_ranges : List (ℤ × Option ℤ × String) :=
  [ (10000, none, "10,000+"),
    (5000, some 10000, "5,000-10,000"),
    (2000, some 5000, "2,000-5,000"),
    (1000, some 2000, "1,000-2,000"),
    (500, some 1000, "500-1,000"),
    (250, some 500, "250-500"),
    (100, some 250, "100-250"),
    (50, some 100, "50-100"),
    (25, some 50, "25-50"),
    (10, some 25, "10-25"),
    (5, some 10, "5-10"),
    (1, some 5, "1-5"),
    (0, some 1, "0-1") ]

/-- The filter construction of the Range Aggregator (lines 52-56, repeated
at lines 174-177): `if max_votes:` is a Python truthiness test on the upper
bound, taking the AND branch iff the bound is present and nonzero. -/
def buildFilter (minVotes : ℤ) (maxVotes : Option ℤ) : VnFilter :=
  if pyTruthyOptInt maxVotes then
    .and2 (.cmpI "votecount" ">" minVotes) (.cmpI "votecount" "<=" (maxVotes.getD 0))
  else
    .cmpI "votecount" ">" minVotes

/-- The sales-estimate bucket triples declared at lines 158-165. -/
def sales_estimate_ranges : List (ℤ × Option ℤ × String) :=
  [ (100000, none, "100k+"),
    (50000, some 100000, "50k-100k"),
    (25000, some 50000, "25k-50k"),
    (10000, some 25000, "10k-25k"),
    (5000, some 10000, "5k-10k"),
    (1000, some 5000, "1k-5k") ]

/-- Line 171: `min_votes = min_sales // 75` (Python floor division). -/
def step5MinVotes (minSales : ℤ) : ℤ := Int.fdiv minSales 75

/-- Line 172: `max_votes = max_sales // 75 if max_sales else None`
(conditional on Python truthiness of `max_sales`). -/
def step5MaxVotes (maxSales : Option ℤ) : Option ℤ :=
  if pyTruthyOptInt maxSales then some (Int.fdiv (maxSales.getD 0) 75) else none

/-- The filter the Model-Comparison step builds for a sales triple
(lines 170-177): convert both bounds, then the same construction as the
Range Aggregator. -/
def step5Filter (t : ℤ × Option ℤ × String) : VnFilter :=
  buildFilter (step5MinVotes t.1) (step5MaxVotes t.2.1)

/-- A bucket record as appended at lines 66-71: the upper bound is stored
as `max_votes if max_votes else 999999` (truthiness again), the count as
whatever `result.get('count', 0)` returned. -/
structure BucketRec where
  range : String
  min : ℤ
  max : ℤ
  count : Json

/-- Build the dict of lines 66-71 from a triple and the extracted count. -/
def mkBucket (t : ℤ × Option ℤ × String) (count : Json) : BucketRec :=
  { range := t.2.2
    min := t.1
    max := if pyTruthyOptInt t.2.1 then t.2.1.getD 0 else 999999
    count := count }

/-- The Range Aggregator loop of lines 51-72, with the HTTP layer as an
oracle `resp` giving the response to the call for the triple at each index.
A falsy response (`None` from a non-200 status, or an empty dict) appends
nothing for that triple; a truthy response appends one record whose count
is `result.get('count', 0)`. -/
def rangeAggregate (resp : ℕ → Option Json) : ℕ → List (ℤ × Option ℤ × String) → List BucketRec
  | _, [] => []
  | i, t :: ts =>
    if pyTruthyOpt (resp i) then
      mkBucket t (((resp i).getD .null).getD "count" (.int 0)) :: rangeAggregate resp (i + 1) ts
    else
      rangeAggregate resp (i + 1) ts

/-- Step 1's `votecount_data` as a function of the API responses. -/
def votecount_data (resp : ℕ → Option Json) : List BucketRec :=
  rangeAggregate resp 0 votecount_ranges

/-- The fixed commercial filter predicates of lines 79-85. -/
def commercial_filters : List (String × VnFilter) :=
  [ ("All Japanese VNs", .cmpS "olang" "=" "ja"),
    ("Japanese + Short or longer", .and2 (.cmpS "olang" "=" "ja") (.cmpI "length" ">=" 2)),
    ("Japanese + Medium or longer", .and2 (.cmpS "olang" "=" "ja") (.cmpI "length" ">=" 3)),
    ("Japanese + Some engagement", .and2 (.cmpS "olang" "=" "ja") (.cmpI "votecount" ">" 10)),
    ("Japanese + Medium + Engagement",
      .and3 (.cmpS "olang" "=" "ja") (.cmpI "length" ">=" 3) (.cmpI "votecount" ">" 10)) ]

/-- A commercial record as appended at line 97. -/
structure CommercialRec where
  filter : String
  count : Json

/-- The Commercial-Filter Aggregator loop of lines 87-98: same null-check
and count-extraction pattern as the Range Aggregator. -/
def commercialAggregate (resp : ℕ → Option Json) :
    ℕ → List (String × VnFilter) → List CommercialRec
  | _, [] => []
  | i, f :: fs =>
    if pyTruthyOpt (resp i) then
      { filter := f.1, count := ((resp i).getD .null).getD "count" (.int 0) } ::
        commercialAggregate resp (i + 1) fs
    else
      commercialAggregate resp (i + 1) fs

/-- Step 2's `commercial_data` as a function of the API responses. -/
def commercial_data (resp : ℕ → Option Json) : List CommercialRec :=
  commercialAggregate resp 0 commercial_filters

/-- Line 116's guard `if result and 'results' in result:` for one page
response. -/
def pageGood (r : Option Json) : Bool :=
  pyTruthyOpt r && (r.getD .null).hasKey "results"

/-- The records a page response contributes (`result['results']`, line
117).  The API returns a JSON array here; the model reads it as such. -/
def pageResults (r : Option Json) : List Json :=
  match (r.getD .null).lookup "results" with
  | some (.arr xs) => xs
  | _ => []

/-- The Top-N fetch loop of lines 105-121 over a list of page numbers
(`range(1, 6)` in the script): extend the accumulator on a good page,
`break` (drop the remaining pages) on a bad one. -/
def fetchLoop (resp : ℕ → Option Json) : List ℕ → List Json
  | [] => []
  | p :: ps =>
    if pageGood (resp p) then pageResults (resp p) ++ fetchLoop resp ps else []

/-- Step 3's `top_vns` as a function of the per-page API responses. -/
def top_vns (resp : ℕ → Option Json) : List Json :=
  fetchLoop resp [1, 2, 3, 4, 5]

/-- Integer value of a JSON value; the script only ever reads `votecount`
fields, which the API delivers as JSON integers. -/
def jsonAsInt : Json → ℤ
  | .int n => n
  | _ => 0

/-- Line 134: `[vn['votecount'] for vn in top_vns if vn.get('votecount')]`.
The guard is Python truthiness of `vn.get('votecount')` (default `None`):
an absent field and a zero count are both excluded. -/
def extractVotecounts : List Json → List ℤ
  | [] => []
  | vn :: rest =>
    if (vn.getD "votecount" .null).truthy then
      jsonAsInt (vn.getD "votecount" .null) :: extractVotecounts rest
    else
      extractVotecounts rest

/-- Python's `max` on a list of ints: `none` models the ValueError raised
on an empty sequence. -/
def pyMax : List ℤ → Option ℤ
  | [] => none
  | x :: xs => some (xs.foldl max x)

/-- Python's `min` on a list of ints, `none` on the empty list. -/
def pyMin : List ℤ → Option ℤ
  | [] => none
  | x :: xs => some (xs.foldl min x)

/-- `np.mean`: the sum divided by the length, as an exact rational. -/
def npMean (l : List ℤ) : Option ℚ :=
  if l.isEmpty then none else some ((l.sum : ℚ) / l.length)

/-- The ascending sort `np.median` performs internally. -/
def npSorted (l : List ℤ) : List ℤ :=
  l.mergeSort (fun a b => decide (a ≤ b))

/-- The textbook median of a sorted list of length n: the middle element
for odd n, the average of the two middle elements for even n. -/
def medianOfSorted (n : ℕ) (s : List ℤ) : ℚ :=
  if n % 2 = 1 then ((s.getD (n / 2) 0 : ℤ) : ℚ)
  else (((s.getD (n / 2 - 1) 0 : ℤ) : ℚ) + ((s.getD (n / 2) 0 : ℤ) : ℚ)) / 2

/-- `np.median`: sort ascending, then take the textbook median, as an
exact rational. -/
def npMedian (l : List ℤ) : Option ℚ :=
  if l.isEmpty then none else some (medianOfSorted l.length (npSorted l))

/-- Observable side effects of the API client. -/
inductive Effect where
  | post (endpoint : String) (payload : Json) : Effect
  | sleep (seconds : ℚ) : Effect
  | printErr (status : ℕ) (body : String) : Effect

/-- An HTTP response as `query_vndb` observes it: status code, decoded
JSON body, raw text. -/
structure HttpResponse where
  status : ℕ
  jsonBody : Json
  text : String

/-- `query_vndb` (lines 10-20) given the response the transport produced:
POST, then unconditionally sleep 0.15 s, then return the decoded body on
status 200 and print-and-return-`None` otherwise. -/
def query_vndb (endpoint : String) (payload : Json) (r : HttpResponse) :
    List Effect × Option Json :=
  if r.status = 200 then
    ([.post endpoint payload, .sleep (3 / 20)], some r.jsonBody)
  else
    ([.post endpoint payload, .sleep (3 / 20), .printErr r.status r.text], none)

/-- The values Step 4 (lines 133-145) computes when it completes: the four
statistics and the two sales estimates (`max * 75`, `min * 75`). -/
structure Step4Out where
  maxV : ℤ
  medianV : ℚ
  meanV : ℚ
  minV : ℤ
  sales1 : ℤ
  sales500 : ℤ

/-- Step 4 as a partial computation: `none` models the uncaught ValueError
`max()` raises on an empty `votecounts` (line 137); `some none` means the
whole block was skipped because `top_vns` was falsy (line 133); `some
(some out)` is normal completion. -/
def step4 (tvns : List Json) : Option (Option Step4Out) :=
  if (Json.arr tvns).truthy then
    match pyMax (extractVotecounts tvns), npMedian (extractVotecounts tvns),
          npMean (extractVotecounts tvns), pyMin (extractVotecounts tvns) with
    | some mx, some med, some mean, some mn =>
        some (some { maxV := mx, medianV := med, meanV := mean, minV := mn,
                     sales1 := mx * 75, sales500 := mn * 75 })
    | _, _, _, _ => none
  else some none

/-- The `top_500_stats` dict of lines 205-210: each entry individually
guarded by `... if votecounts else 0`. -/
structure Top500Stats where
  max_votes : ℤ
  median_votes : ℚ
  mean_votes : ℚ
  min_votes : ℤ

/-- Lines 205-210 as a function of the extracted vote counts. -/
def top500Stats (votecounts : List ℤ) : Top500Stats :=
  { max_votes := if votecounts.isEmpty then 0 else (pyMax votecounts).getD 0
    median_votes := if votecounts.isEmpty then 0 else (npMedian votecounts).getD 0
    mean_votes := if votecounts.isEmpty then 0 else (npMean votecounts).getD 0
    min_votes := if votecounts.isEmpty then 0 else (pyMin votecounts).getD 0 }

/-- The summary object of lines 201-211. -/
structure Summary where
  total_vns : ℤ
  votecount_distribution : List BucketRec
  commercial_counts : List CommercialRec
  top_500_stats : Top500Stats

/-- Steps 4 and the summary assembly together (lines 133-145 and 201-211):
`none` when the run raises before the summary exists.  Besides the Step 4
ValueError, the case `top_vns == []` also raises: Step 4 is skipped, so the
name `votecounts` is unbound when line 206 reads it (NameError). -/
def step4AndSummary (totalVns : ℤ) (vd : List BucketRec) (cd : List CommercialRec)
    (tvns : List Json) : Option Summary :=
  match step4 tvns with
  | none => none
  | some none => none
  | some (some _) =>
      some { total_vns := totalVns
             votecount_distribution := vd
             commercial_counts := cd
             top_500_stats := top500Stats (extractVotecounts tvns) }

/-- The JSON document written for one bucket record inside the summary. -/
def encodeBucket (b : BucketRec) : Json :=
  .obj [("range", .str b.range), ("min", .int b.min), ("max", .int b.max),
        ("count", b.count)]

/-- The JSON document written for one commercial record. -/
def encodeCommercial (c : CommercialRec) : Json :=
  .obj [("filter", .str c.filter), ("count", c.count)]

/-- The JSON document written for the `top_500_stats` entry. -/
def encodeStats (s : Top500Stats) : Json :=
  .obj [("max_votes", .int s.max_votes), ("median_votes", .rat s.median_votes),
        ("mean_votes", .rat s.mean_votes), ("min_votes", .int s.min_votes)]

/-- The summary JSON document passed to `json.dump` at line 214, built
exactly as the dict literal of lines 201-211. -/
def encodeSummary (s : Summary) : Json :=
  .obj [("total_vns", .int s.total_vns),
        ("votecount_distribution", .arr (s.votecount_distribution.map encodeBucket)),
        ("commercial_counts", .arr (s.commercial_counts.map encodeCommercial)),
        ("top_500_stats", encodeStats s.top_500_stats)]

/-- Decode every element of a JSON array, failing if any element fails. -/
def decodeList {α : Type} (f : Json → Option α) : List Json → Option (List α)
  | [] => some []
  | x :: xs =>
    match f x, decodeList f xs with
    | some a, some as => some (a :: as)
    | _, _ => none

/-- Modelled from the spec: what a reader of the persisted summary file
recovers for one bucket entry (field extraction after re-parsing). -/
def decodeBucket (j : Json) : Option BucketRec :=
  match j.lookup "range", j.lookup "min", j.lookup "max", j.lookup "count" with
  | some (.str r), some (.int mn), some (.int mx), some c =>
      some { range := r, min := mn, max := mx, count := c }
  | _, _, _, _ => none

/-- Modelled from the spec: recovery of one commercial entry. -/
def decodeCommercial (j : Json) : Option CommercialRec :=
  match j.lookup "filter", j.lookup "count" with
  | some (.str f), some c => some { filter := f, count := c }
  | _, _ => none

/-- Modelled from the spec: recovery of the `top_500_stats` entry. -/
def decodeStats (j : Json) : Option Top500Stats :=
  match j.lookup "max_votes", j.lookup "median_votes",
        j.lookup "mean_votes", j.lookup "min_votes" with
  | some (.int mx), some (.rat med), some (.rat mean), some (.int mn) =>
      some { max_votes := mx, median_votes := med, mean_votes := mean, min_votes := mn }
  | _, _, _, _ => none

/-- Modelled from the spec: recovery of the whole summary from the
re-parsed document. -/
def decodeSummary (j : Json) : Option Summary :=
  match j.lookup "total_vns", j.lookup "votecount_distribution",
        j.lookup "commercial_counts", j.lookup "top_500_stats" with
  | some (.int t), some (.arr vd), some (.arr cd), some st =>
      match decodeList decodeBucket vd, decodeList decodeCommercial cd, decodeStats st with
      | some vds, some cds, some sts =>
          some { total_vns := t, votecount_distribution := vds,
                 commercial_counts := cds, top_500_stats := sts }
      | _, _, _ => none
  | _, _, _, _ => none

/-- The vote-count triples the Model-Comparison step hands to the filter
construction: the sales triples with both bounds divided by 75
(lines 170-172). -/
def step5ConvertedRanges : List (ℤ × Option ℤ × String) :=
  sales_estimate_ranges.map (fun t => (step5MinVotes t.1, step5MaxVotes t.2.1, t.2.2))

/-- Modelled from the spec: the fetch behaviour claim C3 asserts - stop
fetching further pages after the first failed OR short page (fewer than
`pageSize` results), retaining the records accumulated so far. -/
def fetchLoopClaimed (resp : ℕ → Option Json) (pageSize : ℕ) : List ℕ → List Json
  | [] => []
  | p :: ps =>
    if pageGood (resp p) then
      if (pageResults (resp p)).length < pageSize then pageResults (resp p)
      else pageResults (resp p) ++ fetchLoopClaimed resp pageSize ps
    else []

/-- An API stub whose first call returns a non-200 status (`query_vndb`
gives `None`) and whose later calls succeed with a count of 5. -/
def respFailFirst : ℕ → Option Json := fun k =>
  if k = 0 then none else some (.obj [("count", .int 5)])

/-- A page stub on which every page succeeds but returns a single record
(the page number), i.e. every page is short. -/
def respAllShort : ℕ → Option Json := fun p =>
  some (.obj [("results", .arr [.int p])])

/-- A page stub on which every page returns a full 100 records. -/
def respFull : ℕ → Option Json := fun _ =>
  some (.obj [("results", .arr (List.replicate 100 .null))])

/-!
The persistence layer (json.dump at lines 124-125 and 213-214, and the
re-parse the spec's round-trip property refers to) is modelled down to the
character level: `serializeJson` renders a JSON value the way
`json.dump(v, indent=2)` does (modulo digit-normalization of floats, which
are modelled as exact rationals and rendered as exact decimals), and
`parseJsonDoc` models `json.load`.  `jsonOk` delimits the values this
model round-trips exactly: strings free of characters that would need
escaping, and rationals with a finite decimal expansion (every float the
script produces satisfies both).
-/

def digitChar (d : ℕ) : Char := Char.ofNat (48 + d)

def natToChars (n : ℕ) : List Char :=
  if n = 0 then ['0'] else (Nat.digits 10 n).reverse.map digitChar

def isDigit (c : Char) : Bool := decide ('0' ≤ c) && decide (c ≤ '9')

def digitVal (c : Char) : ℕ := c.toNat - 48

def charsToNat (cs : List Char) : ℕ := cs.foldl (fun a c => 10 * a + digitVal c) 0

def noDigitHead (cs : List Char) : Prop :=
  ∀ c, cs.head? = some c → isDigit c = false

def parseDigits (cs : List Char) : Option (List Char × List Char) :=
  match cs.takeWhile isDigit with
  | [] => none
  | ds => some (ds, cs.dropWhile isDigit)

def intToChars (n : ℤ) : List Char :=
  if n < 0 then '-' :: natToChars n.natAbs else natToChars n.natAbs

def ratToChars (q : ℚ) : List Char :=
  (if q.num * ((10 : ℤ) ^ q.den / (q.den : ℤ)) < 0 then ['-'] else []) ++
    natToChars ((q.num * ((10 : ℤ) ^ q.den / (q.den : ℤ))).natAbs / 10 ^ q.den) ++
    '.' :: (List.replicate
        (q.den -
          (natToChars ((q.num * ((10 : ℤ) ^ q.den / (q.den : ℤ))).natAbs % 10 ^ q.den)).length)
        '0' ++
      natToChars ((q.num * ((10 : ℤ) ^ q.den / (q.den : ℤ))).natAbs % 10 ^ q.den))

def parseUnsignedNumber (cs : List Char) : Option (Json × List Char) :=
  match parseDigits cs with
  | none => none
  | some (ds, rest) =>
    match rest with
    | '.' :: rest2 =>
      match parseDigits rest2 with
      | none => none
      | some (fs, rest3) =>
          some (.rat ((charsToNat ds : ℚ) + (charsToNat fs : ℚ) / (10 : ℚ) ^ fs.length),
            rest3)
    | _ => some (.int (charsToNat ds), rest)

def parseNumber (cs : List Char) : Option (Json × List Char) :=
  if cs.head? = some '-' then
    match parseUnsignedNumber cs.tail with
    | some (.int n, r) => some (.int (-n), r)
    | some (.rat q, r) => some (.rat (-q), r)
    | _ => none
  else parseUnsignedNumber cs

def isWsChar (c : Char) : Bool := c = ' ' || c = '\n' || c = '\t' || c = '\r'

def skipWs : List Char → List Char
  | [] => []
  | c :: cs => if isWsChar c then skipWs cs else c :: cs

def strToChars (s : String) : List Char := '"' :: (s.data ++ ['"'])

def strOk (s : String) : Bool := s.data.all (fun c => !(c = '"') && !(c = '\\'))

def parseStringChars (cs : List Char) : Option (String × List Char) :=
  if cs.head? = some '"' then
    match cs.tail.dropWhile (fun c => !(c = '"')) with
    | '"' :: rest2 => some (⟨cs.tail.takeWhile (fun c => !(c = '"'))⟩, rest2)
    | _ => none
  else none

mutual
def jsize : Json → ℕ
  | .null => 1
  | .bool _ => 1
  | .int _ => 1
  | .rat _ => 1
  | .str _ => 1
  | .arr xs => 1 + jsizeItems xs
  | .obj fs => 1 + jsizeFields fs
def jsizeItems : List Json → ℕ
  | [] => 0
  | x :: xs => 1 + jsize x + jsizeItems xs
def jsizeFields : List (String × Json) → ℕ
  | [] => 0
  | p :: ps => 1 + jsize p.2 + jsizeFields ps
end

mutual
def jsonOk : Json → Bool
  | .null => true
  | .bool _ => true
  | .int _ => true
  | .rat q => decide ((10 ^ q.den) % q.den = 0)
  | .str s => strOk s
  | .arr xs => itemsOk xs
  | .obj fs => fieldsOk fs
def itemsOk : List Json → Bool
  | [] => true
  | x :: xs => jsonOk x && itemsOk xs
def fieldsOk : List (String × Json) → Bool
  | [] => true
  | p :: ps => strOk p.1 && jsonOk p.2 && fieldsOk ps
end

def indentChars (lvl : ℕ) : List Char := List.replicate (2 * lvl) ' '

mutual
def jsonToChars : Json → ℕ → List Char
  | .null, _ => ['n', 'u', 'l', 'l']
  | .bool true, _ => ['t', 'r', 'u', 'e']
  | .bool false, _ => ['f', 'a', 'l', 's', 'e']
  | .int n, _ => intToChars n
  | .rat q, _ => ratToChars q
  | .str s, _ => strToChars s
  | .arr [], _ => ['[', ']']
  | .arr (x :: xs), lvl =>
      '[' :: '\n' :: (indentChars (lvl + 1) ++ (jsonToChars x (lvl + 1) ++
        (itemsToChars xs (lvl + 1) ++ ('\n' :: (indentChars lvl ++ [']'])))))
  | .obj [], _ => ['\x7b', '\x7d']
  | .obj (p :: ps), lvl =>
      '\x7b' :: '\n' :: (indentChars (lvl + 1) ++ (strToChars p.1 ++ (':' :: ' ' ::
        (jsonToChars p.2 (lvl + 1) ++ (fieldsToChars ps (lvl + 1) ++
          ('\n' :: (indentChars lvl ++ ['\x7d'])))))))
def itemsToChars : List Json → ℕ → List Char
  | [], _ => []
  | x :: xs, lvl =>
      ',' :: '\n' :: (indentChars lvl ++ (jsonToChars x lvl ++ itemsToChars xs lvl))
def fieldsToChars : List (String × Json) → ℕ → List Char
  | [], _ => []
  | p :: ps, lvl =>
      ',' :: '\n' :: (indentChars lvl ++ (strToChars p.1 ++ (':' :: ' ' ::
        (jsonToChars p.2 lvl ++ fieldsToChars ps lvl))))
end

mutual
def parseValue : ℕ → List Char → Option (Json × List Char)
  | 0, _ => none
  | fuel + 1, cs =>
    match skipWs cs with
    | [] => none
    | c :: cs2 =>
      if c = '"' then
        match parseStringChars (c :: cs2) with
        | some (s, r) => some (.str s, r)
        | none => none
      else if c = '[' then
        match skipWs cs2 with
        | ']' :: rest => some (.arr [], rest)
        | _ =>
          match parseItems fuel cs2 with
          | some (js, r) => some (.arr js, r)
          | none => none
      else if c = '\x7b' then
        match skipWs cs2 with
        | '\x7d' :: rest => some (.obj [], rest)
        | _ =>
          match parseFields fuel cs2 with
          | some (fs, r) => some (.obj fs, r)
          | none => none
      else if c = 'n' then
        match cs2 with
        | 'u' :: 'l' :: 'l' :: rest => some (.null, rest)
        | _ => none
      else if c = 't' then
        match cs2 with
        | 'r' :: 'u' :: 'e' :: rest => some (.bool true, rest)
        | _ => none
      else if c = 'f' then
        match cs2 with
        | 'a' :: 'l' :: 's' :: 'e' :: rest => some (.bool false, rest)
        | _ => none
      else parseNumber (c :: cs2)
def parseItems : ℕ → List Char → Option (List Json × List Char)
  | 0, _ => none
  | fuel + 1, cs =>
    match parseValue fuel cs with
    | none => none
    | some (j, rest) =>
      match skipWs rest with
      | ',' :: rest2 =>
        match parseItems fuel rest2 with
        | some (js, rest3) => some (j :: js, rest3)
        | none => none
      | ']' :: rest2 => some ([j], rest2)
      | _ => none
def parseFields : ℕ → List Char → Option (List (String × Json) × List Char)
  | 0, _ => none
  | fuel + 1, cs =>
    match parseStringChars (skipWs cs) with
    | none => none
    | some (k, rest) =>
      match skipWs rest with
      | ':' :: rest2 =>
        match parseValue fuel rest2 with
        | none => none
        | some (v, rest3) =>
          match skipWs rest3 with
          | ',' :: rest4 =>
            match parseFields fuel rest4 with
            | some (fs, rest5) => some ((k, v) :: fs, rest5)
            | none => none
          | '\x7d' :: rest4 => some ([(k, v)], rest4)
          | _ => none
      | _ => none
end

def numBoundary (cs : List Char) : Prop :=
  ∀ c, cs.head? = some c → isDigit c = false ∧ c ≠ '.'

def endsDigit : Json → Bool
  | .int _ => true
  | .rat _ => true
  | _ => false

def serializeJson (j : Json) : String := ⟨jsonToChars j 0⟩

def parseJsonDoc (s : String) : Option Json :=
  match parseValue (s.length + 1) s.data with
  | some (j, rest) => if (skipWs rest).isEmpty then some j else none
  | none => none

/-- A concrete summary used to witness the persistence round-trip. -/
def demoSummary : Summary :=
  { total_vns := 58868
    votecount_distribution :=
      [{ range := "10,000+", min := 10000, max := 999999, count := .int 79 }]
    commercial_counts := [{ filter := "All Japanese VNs", count := .int 31216 }]
    top_500_stats :=
      { max_votes := 47313
        median_votes := (⟨7, 2, by decide, by decide⟩ : ℚ)
        mean_votes := 3
        min_votes := 1 } }


theorem buildFilter_bounded (L u : ℤ) (hu : u ≠ 0) :
    buildFilter L (some u) =
      VnFilter.and2 (.cmpI "votecount" ">" L) (.cmpI "votecount" "<=" u) := by
  simp [buildFilter, pyTruthyOptInt, hu]

theorem buildFilter_unbounded (L : ℤ) :
    buildFilter L none = .cmpI "votecount" ">" L := rfl

theorem eval_cmp_gt (L : ℤ) (fi : String → ℤ) (fs : String → String) :
    VnFilter.eval fi fs (.cmpI "votecount" ">" L) = true ↔ L < fi "votecount" := by
  simp [VnFilter.eval]

theorem eval_and2_cmp (L u : ℤ) (fi : String → ℤ) (fs : String → String) :
    VnFilter.eval fi fs
        (VnFilter.and2 (.cmpI "votecount" ">" L) (.cmpI "votecount" "<=" u)) = true ↔
      L < fi "votecount" ∧ fi "votecount" ≤ u := by
  simp [VnFilter.eval]

/-- C1: for every bucket triple (L, U, label) processed by the Range
Aggregator in Step 1 or handed to the same construction by the
Model-Comparison step in Step 5 (after bound conversion), a triple with
upper bound U present yields the AND of (votecount > L) and
(votecount <= U), selecting exactly the records with L < votecount <= U;
a triple with absent upper bound yields the single comparison
votecount > L, selecting exactly the records with votecount > L. -/
theorem bucket_filter_selects_exact_range :
    ∀ t ∈ votecount_ranges ++ step5ConvertedRanges,
      ∀ (fi : String → ℤ) (fs : String → String),
      (∀ u : ℤ, t.2.1 = some u →
        buildFilter t.1 t.2.1 =
          VnFilter.and2 (.cmpI "votecount" ">" t.1) (.cmpI "votecount" "<=" u) ∧
        (VnFilter.eval fi fs (buildFilter t.1 t.2.1) = true ↔
          t.1 < fi "votecount" ∧ fi "votecount" ≤ u)) ∧
      (t.2.1 = none →
        buildFilter t.1 t.2.1 = .cmpI "votecount" ">" t.1 ∧
        (VnFilter.eval fi fs (buildFilter t.1 t.2.1) = true ↔
          t.1 < fi "votecount")) := by
  have key : ∀ t ∈ votecount_ranges ++ step5ConvertedRanges,
      pyTruthyOptInt t.2.1 = t.2.1.isSome := by decide
  intro t ht fi fs
  constructor
  · intro u hu
    have hne : u ≠ 0 := by
      have h1 := key t ht
      rw [hu] at h1
      simpa [pyTruthyOptInt] using h1
    rw [hu, buildFilter_bounded t.1 u hne]
    exact ⟨rfl, eval_and2_cmp _ _ fi fs⟩
  · intro hn
    rw [hn, buildFilter_unbounded t.1]
    exact ⟨rfl, eval_cmp_gt _ fi fs⟩

/-- Witness for C1 at the unbounded triple (10000, None) and a record with
20000 votes. -/
theorem bucket_filter_selects_exact_range_witness :
    buildFilter (10000 : ℤ) none = .cmpI "votecount" ">" 10000 ∧
    (VnFilter.eval (fun _ => 20000) (fun _ => "") (buildFilter (10000 : ℤ) none) = true ↔
      (10000 : ℤ) < 20000) :=
  (bucket_filter_selects_exact_range (10000, none, "10,000+") (by decide)
    (fun _ => 20000) (fun _ => "")).2 rfl

theorem eval_buildFilter_char (L : ℤ) (ub : Option ℤ)
    (h : pyTruthyOptInt ub = ub.isSome) (fi : String → ℤ) (fs : String → String) :
    VnFilter.eval fi fs (buildFilter L ub) = true ↔
      (L < fi "votecount" ∧ ∀ u, ub = some u → fi "votecount" ≤ u) := by
  cases ub with
  | none =>
    rw [buildFilter_unbounded, eval_cmp_gt]
    simp
  | some u =>
    have hu : u ≠ 0 := by simpa [pyTruthyOptInt] using h
    rw [buildFilter_bounded L u hu, eval_and2_cmp]
    simp

/-- C6: the declared vote-count bucket triples are non-overlapping: for any
record (any votecount value), the constructed filter predicates of two
distinct triples never both hold, so summing the bucket counts cannot
double-count a record at any boundary. -/
theorem votecount_buckets_no_double_count :
    ∀ (fi : String → ℤ) (fs : String → String) (i j : ℕ),
      i < votecount_ranges.length → j < votecount_ranges.length →
      VnFilter.eval fi fs
        (buildFilter (votecount_ranges.getD i (0, none, "")).1
          (votecount_ranges.getD i (0, none, "")).2.1) = true →
      VnFilter.eval fi fs
        (buildFilter (votecount_ranges.getD j (0, none, "")).1
          (votecount_ranges.getD j (0, none, "")).2.1) = true →
      i = j := by
  intro fi fs i j hi hj h1 h2
  have hlen : votecount_ranges.length = 13 := rfl
  have hi13 : i < 13 := by omega
  have hj13 : j < 13 := by omega
  have key : ∀ k, k < 13 →
      pyTruthyOptInt ((votecount_ranges.getD k (0, none, "")).2.1) =
        ((votecount_ranges.getD k (0, none, "")).2.1).isSome := by decide
  rw [eval_buildFilter_char _ _ (key i hi13) fi fs] at h1
  rw [eval_buildFilter_char _ _ (key j hj13) fi fs] at h2
  have step : ∀ b, b < 13 → ∀ a, a < b →
      ((votecount_ranges.getD b (0, none, "")).2.1).isSome = true ∧
      ((votecount_ranges.getD b (0, none, "")).2.1).getD 0 ≤
        (votecount_ranges.getD a (0, none, "")).1 := by decide
  rcases lt_trichotomy i j with hij | rfl | hij
  · obtain ⟨hsome, hle⟩ := step j hj13 i hij
    obtain ⟨u, hu⟩ := Option.isSome_iff_exists.mp hsome
    have h2u := h2.2 u hu
    rw [hu, Option.getD_some] at hle
    have h1l := h1.1
    omega
  · rfl
  · obtain ⟨hsome, hle⟩ := step i hi13 j hij
    obtain ⟨u, hu⟩ := Option.isSome_iff_exists.mp hsome
    have h1u := h1.2 u hu
    rw [hu, Option.getD_some] at hle
    have h2l := h2.1
    omega

/-- Witness for C6: the boundary value 10000 satisfies the second bucket's
predicate; instantiating both indices there forces index equality. -/
theorem votecount_buckets_no_double_count_witness :
    (1 : ℕ) = 1 :=
  votecount_buckets_no_double_count (fun _ => 10000) (fun _ => "") 1 1
    (by decide) (by decide) (by decide) (by decide)

/-- C7: the Model-Comparison step converts each sales bound to a vote-count
bound by floor-dividing it by 75, leaves an absent upper bound absent, and
feeds the converted bounds to the same bounded/unbounded filter
construction as the Range Aggregator; the resulting filter selects exactly
the records with votecount > L/75 (and votecount <= U/75 when U is
present). -/
theorem step5_converts_bounds_and_reuses_filter :
    ∀ t ∈ sales_estimate_ranges,
      step5Filter t =
        buildFilter (Int.fdiv t.1 75) (Option.map (fun u => Int.fdiv u 75) t.2.1) ∧
      ∀ (fi : String → ℤ) (fs : String → String),
        (VnFilter.eval fi fs (step5Filter t) = true ↔
          (Int.fdiv t.1 75 < fi "votecount" ∧
            ∀ u, t.2.1 = some u → fi "votecount" ≤ Int.fdiv u 75)) := by
  have hstruct : ∀ t ∈ sales_estimate_ranges,
      step5Filter t =
        buildFilter (Int.fdiv t.1 75) (Option.map (fun u => Int.fdiv u 75) t.2.1) := by
    decide
  have hkey : ∀ t ∈ sales_estimate_ranges,
      pyTruthyOptInt (step5MaxVotes t.2.1) = (step5MaxVotes t.2.1).isSome := by decide
  intro t ht
  refine ⟨hstruct t ht, fun fi fs => ?_⟩
  rw [show step5Filter t = buildFilter (step5MinVotes t.1) (step5MaxVotes t.2.1) from rfl,
    eval_buildFilter_char _ _ (hkey t ht) fi fs]
  have hmin : step5MinVotes t.1 = Int.fdiv t.1 75 := rfl
  rw [hmin]
  constructor
  · rintro ⟨hl, hr⟩
    refine ⟨hl, fun u hu => ?_⟩
    have : step5MaxVotes t.2.1 = some (Int.fdiv u 75) := by
      fin_cases ht <;> simp_all [step5MaxVotes, pyTruthyOptInt] <;> omega
    exact hr _ this
  · rintro ⟨hl, hr⟩
    refine ⟨hl, fun u hu => ?_⟩
    have : ∃ u0, t.2.1 = some u0 ∧ u = Int.fdiv u0 75 := by
      fin_cases ht <;> simp_all [step5MaxVotes, pyTruthyOptInt]
    obtain ⟨u0, hu0, rfl⟩ := this
    exact hr u0 hu0

/-- Witness for C7 at the bounded triple (50000, 100000, "50k-100k") and a
record with 1000 votes: the converted bounds are 666 and 1333. -/
theorem step5_converts_bounds_and_reuses_filter_witness :
    step5Filter (50000, some 100000, "50k-100k") =
      buildFilter (Int.fdiv 50000 75) (Option.map (fun u => Int.fdiv u 75) (some 100000)) ∧
    (VnFilter.eval (fun _ => 1000) (fun _ => "")
        (step5Filter (50000, some 100000, "50k-100k")) = true ↔
      (Int.fdiv 50000 75 < 1000 ∧
        ∀ u, (some 100000 : Option ℤ) = some u → (1000 : ℤ) ≤ Int.fdiv u 75)) :=
  ⟨(step5_converts_bounds_and_reuses_filter (50000, some 100000, "50k-100k") (by decide)).1,
    (step5_converts_bounds_and_reuses_filter (50000, some 100000, "50k-100k") (by decide)).2
      (fun _ => 1000) (fun _ => "")⟩

theorem rangeAggregate_eq_filterMap (resp : ℕ → Option Json) :
    ∀ (i : ℕ) (ts : List (ℤ × Option ℤ × String)),
      rangeAggregate resp i ts = (List.enumFrom i ts).filterMap (fun p =>
        if pyTruthyOpt (resp p.1) then
          some (mkBucket p.2 (((resp p.1).getD .null).getD "count" (.int 0)))
        else none) := by
  intro i ts
  induction ts generalizing i with
  | nil => rfl
  | cons t ts ih =>
    by_cases h : pyTruthyOpt (resp i) = true <;>
      simp [rangeAggregate, List.enumFrom, List.filterMap_cons, h, ih]

theorem commercialAggregate_eq_filterMap (resp : ℕ → Option Json) :
    ∀ (i : ℕ) (fl : List (String × VnFilter)),
      commercialAggregate resp i fl = (List.enumFrom i fl).filterMap (fun p =>
        if pyTruthyOpt (resp p.1) then
          some ({ filter := p.2.1,
                  count := ((resp p.1).getD .null).getD "count" (.int 0) } : CommercialRec)
        else none) := by
  intro i fl
  induction fl generalizing i with
  | nil => rfl
  | cons f fl ih =>
    by_cases h : pyTruthyOpt (resp i) = true <;>
      simp [commercialAggregate, List.enumFrom, List.filterMap_cons, h, ih]

/-- C2 (amended): each aggregator produces, in input order, exactly one
record for each triple (resp. predicate) whose API call returned a truthy
result, with the count extracted by `result.get('count', 0)` (so 0 when
the count key is absent); a triple whose call failed (null result, or an
empty-object result) is skipped entirely - no record at all is produced
for it - and no exception is raised (the aggregators are total). -/
theorem aggregators_skip_failed_calls (resp resp2 : ℕ → Option Json) :
    votecount_data resp = (List.enumFrom 0 votecount_ranges).filterMap (fun p =>
      if pyTruthyOpt (resp p.1) then
        some (mkBucket p.2 (((resp p.1).getD .null).getD "count" (.int 0)))
      else none) ∧
    commercial_data resp2 = (List.enumFrom 0 commercial_filters).filterMap (fun p =>
      if pyTruthyOpt (resp2 p.1) then
        some ({ filter := p.2.1,
                count := ((resp2 p.1).getD .null).getD "count" (.int 0) } : CommercialRec)
      else none) :=
  ⟨rangeAggregate_eq_filterMap resp 0 votecount_ranges,
   commercialAggregate_eq_filterMap resp2 0 commercial_filters⟩

/-- C2 counterexample: when the API call for the first triple returns a
non-200 status (null result) and all other calls succeed, Step 1 produces
only 12 records - the failed triple is reported with no record at all, not
with a 0 count as the claim states. -/
theorem aggregator_failed_call_produces_no_record :
    (votecount_data respFailFirst).length = 12 ∧
    votecount_ranges.length = 13 ∧
    (votecount_data respFailFirst).map BucketRec.range =
      ["5,000-10,000", "2,000-5,000", "1,000-2,000", "500-1,000", "250-500",
       "100-250", "50-100", "25-50", "10-25", "5-10", "1-5", "0-1"] := by
  refine ⟨by decide, by decide, by decide⟩

theorem fetchLoop_firstFailure (resp : ℕ → Option Json) :
    ∀ ps : List ℕ, ∃ k, k ≤ ps.length ∧
      fetchLoop resp ps = (ps.take k).flatMap (fun p => pageResults (resp p)) ∧
      (∀ p ∈ ps.take k, pageGood (resp p) = true) ∧
      (∀ h : k < ps.length, pageGood (resp (ps.get ⟨k, h⟩)) = false) := by
  intro ps
  induction ps with
  | nil => exact ⟨0, by simp [fetchLoop]⟩
  | cons p ps ih =>
    by_cases h : pageGood (resp p) = true
    · obtain ⟨k, hk, heq, hgood, hbad⟩ := ih
      refine ⟨k + 1, by simpa using hk, ?_, ?_, ?_⟩
      · simp [fetchLoop, h, heq, List.take_succ_cons]
      · intro q hq
        rw [List.take_succ_cons] at hq
        rcases List.mem_cons.mp hq with rfl | hq
        · exact h
        · exact hgood q hq
      · intro hlt
        have hlt2 : k < ps.length := by simpa using hlt
        simp only [List.get_cons_succ]
        exact hbad hlt2
    · refine ⟨0, by simp, ?_, by simp, ?_⟩
      · simp only [fetchLoop, List.take_zero, List.flatMap_nil]
        rw [if_neg h]
      · intro hlt
        simpa using h

theorem flatMap_pages_length_le (g : ℕ → List Json) (c : ℕ) (h : ∀ p, (g p).length ≤ c) :
    ∀ ps : List ℕ, (ps.flatMap g).length ≤ c * ps.length := by
  intro ps
  induction ps with
  | nil => simp
  | cons p ps ih =>
    rw [List.flatMap_cons, List.length_append, List.length_cons, Nat.mul_succ]
    have := h p
    omega

/-- C3 (amended): with pageCount=5 and pageSize=100, the Top-N Fetcher
yields at most 500 records provided each page response carries at most
pageSize results; the fetched list is the concatenation, in page order, of
the results of an initial run of successful pages, and the loop stops
fetching further pages only after a FAILED page (null response, or a
response without a results array).  A successful page that is merely short
does not stop the loop. -/
theorem top_vns_bound_and_stop_on_failure (resp : ℕ → Option Json)
    (hsize : ∀ p, (pageResults (resp p)).length ≤ 100) :
    (top_vns resp).length ≤ 500 ∧
    ∃ k, k ≤ 5 ∧
      top_vns resp =
        (([1, 2, 3, 4, 5] : List ℕ).take k).flatMap (fun p => pageResults (resp p)) ∧
      (∀ p ∈ ([1, 2, 3, 4, 5] : List ℕ).take k, pageGood (resp p) = true) ∧
      (∀ h : k < 5, pageGood (resp (([1, 2, 3, 4, 5] : List ℕ).get ⟨k, h⟩)) = false) := by
  obtain ⟨k, hk, heq, hgood, hbad⟩ := fetchLoop_firstFailure resp [1, 2, 3, 4, 5]
  have hk5 : k ≤ 5 := by simpa using hk
  constructor
  · show (fetchLoop resp [1, 2, 3, 4, 5]).length ≤ 500
    rw [heq]
    calc (((([1, 2, 3, 4, 5] : List ℕ).take k)).flatMap
            (fun p => pageResults (resp p))).length
        ≤ 100 * (([1, 2, 3, 4, 5] : List ℕ).take k).length :=
          flatMap_pages_length_le _ 100 hsize _
      _ ≤ 100 * 5 := by
          have h5 : (([1, 2, 3, 4, 5] : List ℕ).take k).length ≤ 5 :=
            le_trans (List.length_take_le k ([1, 2, 3, 4, 5] : List ℕ)) hk5
          omega
      _ = 500 := by norm_num
  · exact ⟨k, hk5, heq, hgood, fun h => hbad (by simpa using h)⟩

set_option maxRecDepth 4000 in
/-- Witness for C3 at a stub where every page returns a full 100 records:
all five pages are consumed and exactly 500 records are retained. -/
theorem top_vns_bound_and_stop_on_failure_witness :
    (top_vns respFull).length = 500 ∧ (top_vns respFull).length ≤ 500 :=
  ⟨by decide,
    (top_vns_bound_and_stop_on_failure respFull (fun p => by
      show (pageResults (some (.obj [("results", .arr (List.replicate 100 .null))]))).length ≤ 100
      decide)).1⟩

/-- C3 counterexample: every page succeeds but is short (1 record out of
100).  The loop fetches all five pages and retains 5 records, so it does
NOT stop after the first short page; the behaviour the claim describes
(`fetchLoopClaimed`) would retain only the first page's single record. -/
theorem top_vns_does_not_stop_on_short_page :
    (pageResults (respAllShort 1)).length = 1 ∧
    (top_vns respAllShort).length = 5 ∧
    (fetchLoopClaimed respAllShort 100 [1, 2, 3, 4, 5]).length = 1 ∧
    top_vns respAllShort ≠ fetchLoopClaimed respAllShort 100 [1, 2, 3, 4, 5] := by
  refine ⟨by decide, by decide, by decide, fun h => ?_⟩
  exact absurd (congrArg List.length h) (by decide)

theorem foldl_max_mem (x : ℤ) (xs : List ℤ) : xs.foldl max x ∈ x :: xs := by
  induction xs generalizing x with
  | nil => simp
  | cons a as ih =>
    rw [List.foldl_cons]
    rcases List.mem_cons.mp (ih (max x a)) with h | h
    · rcases max_choice x a with hm | hm <;> rw [h, hm] <;> simp
    · simp [h]

theorem le_foldl_max (x : ℤ) (xs : List ℤ) : ∀ y ∈ x :: xs, y ≤ xs.foldl max x := by
  induction xs generalizing x with
  | nil =>
    intro y hy
    simp at hy
    simp [hy]
  | cons a as ih =>
    intro y hy
    rw [List.foldl_cons]
    rcases List.mem_cons.mp hy with rfl | hy2
    · exact le_trans (le_max_left y a) (ih (max y a) _ (by simp))
    · rcases List.mem_cons.mp hy2 with rfl | hy3
      · exact le_trans (le_max_right x y) (ih (max x y) _ (by simp))
      · exact ih (max x a) y (by simp [hy3])

theorem foldl_min_mem (x : ℤ) (xs : List ℤ) : xs.foldl min x ∈ x :: xs := by
  induction xs generalizing x with
  | nil => simp
  | cons a as ih =>
    rw [List.foldl_cons]
    rcases List.mem_cons.mp (ih (min x a)) with h | h
    · rcases min_choice x a with hm | hm <;> rw [h, hm] <;> simp
    · simp [h]

theorem foldl_min_le (x : ℤ) (xs : List ℤ) : ∀ y ∈ x :: xs, xs.foldl min x ≤ y := by
  induction xs generalizing x with
  | nil =>
    intro y hy
    simp at hy
    simp [hy]
  | cons a as ih =>
    intro y hy
    rw [List.foldl_cons]
    rcases List.mem_cons.mp hy with rfl | hy2
    · exact le_trans (ih (min y a) _ (by simp)) (min_le_left y a)
    · rcases List.mem_cons.mp hy2 with rfl | hy3
      · exact le_trans (ih (min x y) _ (by simp)) (min_le_right x y)
      · exact ih (min x a) y (by simp [hy3])

theorem npSorted_sorted (l : List ℤ) : (npSorted l).Sorted (· ≤ ·) := by
  have hp := @List.sorted_mergeSort ℤ (fun a b : ℤ => decide (a ≤ b))
    (fun a b c hab hbc => by
      simp only [decide_eq_true_eq] at hab hbc ⊢
      omega)
    (fun a b => by
      simp only [Bool.or_eq_true, decide_eq_true_eq]
      omega)
    l
  exact hp.imp (fun hab => of_decide_eq_true hab)

theorem npSorted_perm (l : List ℤ) : (npSorted l).Perm l :=
  List.mergeSort_perm l _

/-- C5: on any non-empty list, the computed maximum is a member bounding
the list from above, the minimum a member bounding it from below, the mean
is the sum divided by the length, and the median is the textbook median of
any sorted rearrangement of the list; in particular on [1,2,3,4,5] these
are 5, 1, 3 and 3 (see the witness). -/
theorem stats_textbook_values (l : List ℤ) (h : l ≠ []) :
    (∃ m, pyMax l = some m ∧ m ∈ l ∧ ∀ x ∈ l, x ≤ m) ∧
    (∃ m, pyMin l = some m ∧ m ∈ l ∧ ∀ x ∈ l, m ≤ x) ∧
    npMean l = some ((l.sum : ℚ) / (l.length : ℚ)) ∧
    (∀ s : List ℤ, l.Perm s → s.Sorted (· ≤ ·) →
      npMedian l = some (medianOfSorted l.length s)) := by
  have hne : l.isEmpty = false := by simpa using h
  refine ⟨?_, ?_, ?_, ?_⟩
  · cases l with
    | nil => exact absurd rfl h
    | cons x xs => exact ⟨xs.foldl max x, rfl, foldl_max_mem x xs, le_foldl_max x xs⟩
  · cases l with
    | nil => exact absurd rfl h
    | cons x xs => exact ⟨xs.foldl min x, rfl, foldl_min_mem x xs, foldl_min_le x xs⟩
  · rw [npMean, if_neg (by simp [hne])]
  · intro s hp hs
    have hseq : npSorted l = s :=
      List.eq_of_perm_of_sorted ((npSorted_perm l).trans hp) (npSorted_sorted l) hs
    rw [npMedian, if_neg (by simp [hne]), hseq]

/-- Witness for C5 on the synthetic list [1,2,3,4,5]: max 5, min 1,
mean 3, median 3. -/
theorem stats_textbook_values_witness :
    pyMax [(1 : ℤ), 2, 3, 4, 5] = some 5 ∧ pyMin [(1 : ℤ), 2, 3, 4, 5] = some 1 ∧
    npMean [(1 : ℤ), 2, 3, 4, 5] = some 3 ∧
    npMedian [(1 : ℤ), 2, 3, 4, 5] = some 3 := by
  have h := stats_textbook_values [1, 2, 3, 4, 5] (by decide)
  refine ⟨by decide, by decide, ?_, ?_⟩
  · rw [h.2.2.1]
    norm_num
  · rw [h.2.2.2 [1, 2, 3, 4, 5] (List.Perm.refl _) (by decide)]
    norm_num [medianOfSorted]

/-- C8: every call posts the payload and then sleeps the fixed rate-limit
delay regardless of the response status; on status 200 the decoded JSON
body is returned; on any other status the function reports the status code
and body text and returns null rather than raising. -/
theorem query_vndb_contract (endpoint : String) (payload : Json) (r : HttpResponse) :
    (query_vndb endpoint payload r).1.take 2 =
      [Effect.post endpoint payload, Effect.sleep (3 / 20)] ∧
    (r.status = 200 → (query_vndb endpoint payload r).2 = some r.jsonBody) ∧
    (r.status ≠ 200 →
      (query_vndb endpoint payload r).2 = none ∧
      Effect.printErr r.status r.text ∈ (query_vndb endpoint payload r).1) := by
  by_cases h : r.status = 200 <;> simp [query_vndb, h]

/-- Witness for C8: a 200 response returns its body; a 404 response
returns null and sleeps all the same. -/
theorem query_vndb_contract_witness :
    (query_vndb "vn" .null ⟨200, .int 1, "ok"⟩).2 = some (.int 1) ∧
    (query_vndb "vn" .null ⟨404, .null, "not found"⟩).2 = none ∧
    (query_vndb "vn" .null ⟨404, .null, "not found"⟩).1.take 2 =
      [Effect.post "vn" .null, Effect.sleep (3 / 20)] :=
  ⟨(query_vndb_contract "vn" .null ⟨200, .int 1, "ok"⟩).2.1 rfl,
   ((query_vndb_contract "vn" .null ⟨404, .null, "not found"⟩).2.2 (by decide)).1,
   (query_vndb_contract "vn" .null ⟨404, .null, "not found"⟩).1⟩

/-- C9: a record whose votecount field is absent, or present but equal to
0, is rejected by the truthiness guard of the extraction at line 134:
removing such a record leaves the extracted vote-count list - and hence
every statistic computed from it, including the persisted top-N stats -
unchanged. -/
theorem zero_votecount_never_contributes (pre post : List Json) (vn : Json)
    (h : vn.lookup "votecount" = some (.int 0) ∨ vn.lookup "votecount" = none) :
    extractVotecounts (pre ++ vn :: post) = extractVotecounts (pre ++ post) ∧
    pyMax (extractVotecounts (pre ++ vn :: post)) =
      pyMax (extractVotecounts (pre ++ post)) ∧
    npMedian (extractVotecounts (pre ++ vn :: post)) =
      npMedian (extractVotecounts (pre ++ post)) ∧
    npMean (extractVotecounts (pre ++ vn :: post)) =
      npMean (extractVotecounts (pre ++ post)) ∧
    pyMin (extractVotecounts (pre ++ vn :: post)) =
      pyMin (extractVotecounts (pre ++ post)) ∧
    top500Stats (extractVotecounts (pre ++ vn :: post)) =
      top500Stats (extractVotecounts (pre ++ post)) := by
  have hmain : extractVotecounts (pre ++ vn :: post) = extractVotecounts (pre ++ post) := by
    induction pre with
    | nil =>
      rcases h with h | h <;>
        simp [extractVotecounts, Json.getD, h, Json.truthy]
    | cons q pre ih =>
      by_cases hg : (q.getD "votecount" .null).truthy = true <;>
        simp [extractVotecounts, hg, ih]
  exact ⟨hmain, by rw [hmain], by rw [hmain], by rw [hmain], by rw [hmain], by rw [hmain]⟩

/-- Witness for C9: a record with votecount 0 sandwiched between two live
records changes nothing. -/
theorem zero_votecount_never_contributes_witness :
    extractVotecounts ([Json.obj [("votecount", .int 7)]] ++
        Json.obj [("votecount", .int 0)] :: [Json.obj [("votecount", .int 9)]]) =
      extractVotecounts ([Json.obj [("votecount", .int 7)]] ++
        [Json.obj [("votecount", .int 9)]]) :=
  (zero_votecount_never_contributes [Json.obj [("votecount", .int 7)]]
    [Json.obj [("votecount", .int 9)]] (Json.obj [("votecount", .int 0)])
    (Or.inl rfl)).1

theorem extract_eq_nil_of_no_nonzero (l : List Json)
    (h : ∀ vn ∈ l, vn.lookup "votecount" = some (.int 0) ∨ vn.lookup "votecount" = none) :
    extractVotecounts l = [] := by
  induction l with
  | nil => rfl
  | cons vn rest ih =>
    rcases h vn (by simp) with h1 | h1 <;>
      simp [extractVotecounts, Json.getD, h1, Json.truthy,
        ih (fun q hq => h q (by simp [hq]))]

theorem extract_ne_nil_of_nonzero (l : List Json)
    (h : ∃ vn ∈ l, ∃ c : ℤ, c ≠ 0 ∧ vn.lookup "votecount" = some (.int c)) :
    extractVotecounts l ≠ [] := by
  obtain ⟨vn, hmem, c, hc, hl⟩ := h
  induction l with
  | nil => simp at hmem
  | cons q rest ih =>
    by_cases hg : (q.getD "votecount" .null).truthy = true
    · simp [extractVotecounts, hg]
    · rcases List.mem_cons.mp hmem with rfl | hmem2
      · exact absurd (by simp [Json.getD, hl, Json.truthy, hc]) hg
      · simpa [extractVotecounts, hg] using ih hmem2

/-- C10: when the fetched list is non-empty, Step 4 raises an uncaught
error (max of an empty sequence) exactly in the case that no fetched
record carries a nonzero votecount; when some record does, Step 4 and the
summary assembly both complete and a summary value is produced. -/
theorem step4_raise_and_completion (totalVns : ℤ) (vd : List BucketRec)
    (cd : List CommercialRec) (tvns : List Json) (hne : tvns ≠ []) :
    ((∀ vn ∈ tvns, vn.lookup "votecount" = some (.int 0) ∨ vn.lookup "votecount" = none) →
      step4 tvns = none ∧ step4AndSummary totalVns vd cd tvns = none) ∧
    ((∃ vn ∈ tvns, ∃ c : ℤ, c ≠ 0 ∧ vn.lookup "votecount" = some (.int c)) →
      (∃ o, step4 tvns = some (some o)) ∧
      (∃ s, step4AndSummary totalVns vd cd tvns = some s)) := by
  have htv : (Json.arr tvns).truthy = true := by
    simp [Json.truthy]
    exact hne
  constructor
  · intro hall
    have hext := extract_eq_nil_of_no_nonzero tvns hall
    have h4 : step4 tvns = none := by
      rw [step4, if_pos htv, hext]
      rfl
    exact ⟨h4, by rw [step4AndSummary, h4]⟩
  · intro hsome
    have hext := extract_ne_nil_of_nonzero tvns hsome
    obtain ⟨a, as, hcons⟩ := List.exists_cons_of_ne_nil hext
    have hmed : (extractVotecounts tvns).isEmpty = false := by simp [hcons]
    have h4 : step4 tvns = some (some
        { maxV := as.foldl max a
          medianV := medianOfSorted (extractVotecounts tvns).length
            (npSorted (extractVotecounts tvns))
          meanV := ((extractVotecounts tvns).sum : ℚ) / (extractVotecounts tvns).length
          minV := as.foldl min a
          sales1 := as.foldl max a * 75
          sales500 := as.foldl min a * 75 }) := by
      rw [step4, if_pos htv]
      rw [npMedian, if_neg (by simp [hmed]), npMean, if_neg (by simp [hmed])]
      rw [hcons]
      rfl
    refine ⟨⟨_, h4⟩, ?_⟩
    rw [step4AndSummary, h4]
    exact ⟨_, rfl⟩

/-- Witness for C10: a single zero-votecount record makes Step 4 raise; a
single record with 42 votes lets the pipeline produce a summary. -/
theorem step4_raise_and_completion_witness :
    step4 [Json.obj [("votecount", .int 0)]] = none ∧
    (∃ s, step4AndSummary 58868 [] [] [Json.obj [("votecount", .int 42)]] = some s) :=
  ⟨((step4_raise_and_completion 58868 [] [] [Json.obj [("votecount", .int 0)]]
      (by simp)).1 (fun vn hvn => by
        rw [List.mem_singleton] at hvn
        subst hvn
        exact Or.inl rfl)).1,
   ((step4_raise_and_completion 58868 [] [] [Json.obj [("votecount", .int 42)]]
      (by simp)).2 ⟨Json.obj [("votecount", .int 42)], by simp, 42, by decide, rfl⟩).2⟩

theorem decodeBucket_encodeBucket (b : BucketRec) :
    decodeBucket (encodeBucket b) = some b := rfl

theorem decodeCommercial_encodeCommercial (c : CommercialRec) :
    decodeCommercial (encodeCommercial c) = some c := rfl

theorem decodeStats_encodeStats (st : Top500Stats) :
    decodeStats (encodeStats st) = some st := rfl

theorem decodeList_encodeBucket (l : List BucketRec) :
    decodeList decodeBucket (l.map encodeBucket) = some l := by
  induction l with
  | nil => rfl
  | cons b bs ih => simp [decodeList, decodeBucket_encodeBucket, ih]

theorem decodeList_encodeCommercial (l : List CommercialRec) :
    decodeList decodeCommercial (l.map encodeCommercial) = some l := by
  induction l with
  | nil => rfl
  | cons c cs ih => simp [decodeList, decodeCommercial_encodeCommercial, ih]

theorem charsToNat_append (a b : List Char) :
    charsToNat (a ++ b) = b.foldl (fun a c => 10 * a + digitVal c) (charsToNat a) := by
  simp [charsToNat, List.foldl_append]

theorem foldl_digits_start (b : List Char) :
    ∀ s : ℕ, b.foldl (fun a c => 10 * a + digitVal c) s =
      s * 10 ^ b.length + charsToNat b := by
  induction b with
  | nil => simp [charsToNat]
  | cons c cs ih =>
    intro s
    have h2 : charsToNat (c :: cs) = digitVal c * 10 ^ cs.length + charsToNat cs := by
      show cs.foldl _ (10 * 0 + digitVal c) = _
      rw [ih]
      ring
    rw [List.foldl_cons, ih (10 * s + digitVal c), h2, List.length_cons, pow_succ]
    ring

theorem charsToNat_natToChars (n : ℕ) : charsToNat (natToChars n) = n := by
  rw [natToChars]
  split
  · rename_i h
    subst h
    decide
  · rename_i h
    have key : ∀ ds : List ℕ, (∀ d ∈ ds, d < 10) →
        charsToNat ((ds.reverse).map digitChar) = Nat.ofDigits 10 ds := by
      intro ds
      induction ds with
      | nil => intro _; simp [charsToNat, Nat.ofDigits]
      | cons d ds ih =>
        intro hlt
        rw [List.reverse_cons, List.map_append, charsToNat_append]
        rw [foldl_digits_start]
        rw [ih (fun x hx => hlt x (by simp [hx]))]
        have hd : d < 10 := hlt d (by simp)
        have hv : digitVal (digitChar d) = d := by
          interval_cases d <;> decide
        have hone : charsToNat [digitChar d] = d := by
          simp [charsToNat, hv]
        rw [Nat.ofDigits_cons]
        simp [hone]
        ring
    rw [key _ (fun d hd => Nat.digits_lt_base (by norm_num) hd)]
    exact Nat.ofDigits_digits 10 n

theorem natToChars_ne_nil (n : ℕ) : natToChars n ≠ [] := by
  rw [natToChars]
  split
  · simp
  · rename_i h
    simp only [ne_eq, List.map_eq_nil_iff, List.reverse_eq_nil_iff]
    exact Nat.digits_ne_nil_iff_ne_zero.mpr h

theorem isDigit_digitChar (d : ℕ) (h : d < 10) : isDigit (digitChar d) = true := by
  interval_cases d <;> decide

theorem natToChars_all_digits (n : ℕ) : ∀ c ∈ natToChars n, isDigit c = true := by
  intro c hc
  rw [natToChars] at hc
  split at hc
  · simp at hc
    subst hc
    decide
  · simp only [List.mem_map, List.mem_reverse] at hc
    obtain ⟨d, hd, rfl⟩ := hc
    exact isDigit_digitChar d (Nat.digits_lt_base (by norm_num) hd)

theorem natToChars_length_le (n e : ℕ) (he : 1 ≤ e) (h : n < 10 ^ e) :
    (natToChars n).length ≤ e := by
  rw [natToChars]
  split
  · simpa using he
  · rename_i hn
    simp only [List.length_map, List.length_reverse]
    rw [Nat.digits_len 10 n (by norm_num) hn]
    have := Nat.log_lt_of_lt_pow hn h
    omega

theorem noDigitHead_nil : noDigitHead [] := by
  intro c hc
  simp at hc

theorem takeWhile_digits_append (ds rest : List Char)
    (hds : ∀ c ∈ ds, isDigit c = true) (hrest : noDigitHead rest) :
    (ds ++ rest).takeWhile isDigit = ds ∧ (ds ++ rest).dropWhile isDigit = rest := by
  induction ds with
  | nil =>
    cases rest with
    | nil => simp
    | cons r rs =>
      have hr := hrest r rfl
      simp [List.takeWhile_cons, List.dropWhile_cons, hr]
  | cons d ds ih =>
    have hd := hds d (by simp)
    have := ih (fun c hc => hds c (by simp [hc]))
    simp [List.takeWhile_cons, List.dropWhile_cons, hd, this]

theorem parseDigits_spec (ds rest : List Char) (hne : ds ≠ [])
    (hds : ∀ c ∈ ds, isDigit c = true) (hrest : noDigitHead rest) :
    parseDigits (ds ++ rest) = some (ds, rest) := by
  obtain ⟨ht, hd⟩ := takeWhile_digits_append ds rest hds hrest
  rw [parseDigits, ht, hd]
  cases ds with
  | nil => exact absurd rfl hne
  | cons d ds => rfl

theorem charsToNat_replicate_zero (k : ℕ) (cs : List Char) :
    charsToNat (List.replicate k '0' ++ cs) = charsToNat cs := by
  induction k with
  | zero => simp
  | succ k ih =>
    rw [List.replicate_succ, List.cons_append]
    show List.foldl _ (10 * 0 + digitVal '0') _ = _
    have : 10 * 0 + digitVal '0' = 0 := by decide
    rw [this]
    exact ih

theorem parseUnsigned_nat (n : ℕ) (rest : List Char) (hrest : noDigitHead rest)
    (hdot : rest.head? ≠ some '.') :
    parseUnsignedNumber (natToChars n ++ rest) = some (.int n, rest) := by
  rw [parseUnsignedNumber,
    parseDigits_spec (natToChars n) rest (natToChars_ne_nil n) (natToChars_all_digits n) hrest]
  cases rest with
  | nil => simp [charsToNat_natToChars]
  | cons r rs =>
    have hr : r ≠ '.' := by
      intro h
      exact hdot (by simp [h])
    simp only []
    split
    · rename_i rest2 heq
      injection heq with h1 h2
      exact absurd h1 hr
    · simp [charsToNat_natToChars]

theorem natToChars_head_digit (n : ℕ) :
    ∃ d ds, natToChars n = d :: ds ∧ isDigit d = true := by
  cases h : natToChars n with
  | nil => exact absurd h (natToChars_ne_nil n)
  | cons d ds =>
    exact ⟨d, ds, rfl, natToChars_all_digits n d (by rw [h]; simp)⟩

theorem parseNumber_not_minus (cs : List Char) (d : Char) (tail : List Char)
    (hcs : cs = d :: tail) (hd : d ≠ '-') :
    parseNumber cs = parseUnsignedNumber cs := by
  subst hcs
  rw [parseNumber, if_neg (by simp [hd])]

theorem parseNumber_int (n : ℤ) (rest : List Char) (hrest : noDigitHead rest)
    (hdot : rest.head? ≠ some '.') :
    parseNumber (intToChars n ++ rest) = some (.int n, rest) := by
  rw [intToChars]
  by_cases h : n < 0
  · rw [if_pos h, List.cons_append]
    rw [parseNumber, if_pos (by simp)]
    rw [List.tail_cons, parseUnsigned_nat n.natAbs rest hrest hdot]
    show some (Json.int (-(n.natAbs : ℤ)), rest) = some (Json.int n, rest)
    have hn : -(n.natAbs : ℤ) = n := by omega
    rw [hn]
  · rw [if_neg h]
    obtain ⟨d, ds, hnc, hdig⟩ := natToChars_head_digit n.natAbs
    have hdm : d ≠ '-' := by
      intro hcon
    -- a digit is never the minus sign
      rw [hcon] at hdig
      exact absurd hdig (by decide)
    rw [parseNumber_not_minus _ d (ds ++ rest) (by rw [hnc]; simp) hdm]
    rw [parseUnsigned_nat n.natAbs rest hrest hdot]
    have hn : (n.natAbs : ℤ) = n := by omega
    rw [hn]

theorem parseUnsigned_decimal (ip fr e : ℕ) (he : 1 ≤ e) (hfr : fr < 10 ^ e)
    (rest : List Char) (hrest : noDigitHead rest) :
    parseUnsignedNumber (natToChars ip ++
        '.' :: (List.replicate (e - (natToChars fr).length) '0' ++ (natToChars fr ++ rest))) =
      some (.rat ((ip : ℚ) + (fr : ℚ) / (10 : ℚ) ^ e), rest) := by
  have hlen : (natToChars fr).length ≤ e := natToChars_length_le fr e he hfr
  rw [parseUnsignedNumber,
    parseDigits_spec (natToChars ip) _ (natToChars_ne_nil ip) (natToChars_all_digits ip)
      (by intro c hc; simp at hc; subst hc; decide)]
  show (match parseDigits (List.replicate (e - (natToChars fr).length) '0' ++
      (natToChars fr ++ rest)) with
    | none => none
    | some (fs, rest3) =>
        some (Json.rat ((charsToNat (natToChars ip) : ℚ) +
          (charsToNat fs : ℚ) / (10 : ℚ) ^ fs.length), rest3)) = _
  rw [show List.replicate (e - (natToChars fr).length) '0' ++ (natToChars fr ++ rest) =
      (List.replicate (e - (natToChars fr).length) '0' ++ natToChars fr) ++ rest by
    simp [List.append_assoc]]
  rw [parseDigits_spec _ rest
    (by simp [natToChars_ne_nil fr])
    (by
      intro c hc
      rcases List.mem_append.mp hc with hc | hc
      · rw [List.eq_of_mem_replicate hc]
        decide
      · exact natToChars_all_digits fr c hc)
    hrest]
  show some (Json.rat _, rest) = some (Json.rat _, rest)
  have hlength : (List.replicate (e - (natToChars fr).length) '0' ++ natToChars fr).length = e := by
    simp only [List.length_append, List.length_replicate]
    omega
  rw [charsToNat_natToChars, charsToNat_replicate_zero, charsToNat_natToChars, hlength]

theorem parseNumber_rat (q : ℚ) (hq : (10 ^ q.den) % q.den = 0) (rest : List Char)
    (hrest : noDigitHead rest) :
    parseNumber (ratToChars q ++ rest) = some (.rat q, rest) := by
  have hdvd : (q.den : ℤ) ∣ (10 : ℤ) ^ q.den := by
    have h1 : q.den ∣ 10 ^ q.den := Nat.dvd_of_mod_eq_zero hq
    have h2 := Int.natCast_dvd_natCast.mpr h1
    push_cast at h2
    exact h2
  have hden_pos : (0 : ℤ) < (q.den : ℤ) := by exact_mod_cast q.pos
  have hMden : ((10 : ℤ) ^ q.den / (q.den : ℤ)) * (q.den : ℤ) = (10 : ℤ) ^ q.den :=
    Int.ediv_mul_cancel hdvd
  have h10pos : (0 : ℤ) < 10 ^ q.den := pow_pos (by norm_num) q.den
  have hMpos : 0 < (10 : ℤ) ^ q.den / (q.den : ℤ) := by
    by_contra hnot
    push_neg at hnot
    have := mul_nonpos_of_nonpos_of_nonneg hnot hden_pos.le
    omega
  have hkey : ∀ b : ℕ, ((b / 10 ^ q.den : ℕ) : ℚ) + ((b % 10 ^ q.den : ℕ) : ℚ) / (10 : ℚ) ^ q.den
      = (b : ℚ) / (10 : ℚ) ^ q.den := by
    intro b
    have hd := Nat.div_add_mod b (10 ^ q.den)
    have h10 : ((10 : ℚ) ^ q.den) ≠ 0 := by positivity
    field_simp
    have hd2 : b / 10 ^ q.den * 10 ^ q.den + b % 10 ^ q.den = b := by
      rw [mul_comm]
      exact hd
    exact_mod_cast hd2
  have hmain : ((q.num * ((10 : ℤ) ^ q.den / (q.den : ℤ)) : ℤ) : ℚ) / (10 : ℚ) ^ q.den = q := by
    have hM0 : (((10 : ℤ) ^ q.den / (q.den : ℤ) : ℤ) : ℚ) ≠ 0 := by
      exact_mod_cast hMpos.ne.symm
    have h1 : ((10 : ℚ)) ^ q.den =
        (((10 : ℤ) ^ q.den / (q.den : ℤ) : ℤ) : ℚ) * (q.den : ℚ) := by
      rw [show (((10 : ℤ) ^ q.den / (q.den : ℤ) : ℤ) : ℚ) * (q.den : ℚ) =
          ((((10 : ℤ) ^ q.den / (q.den : ℤ)) * (q.den : ℤ) : ℤ) : ℚ) by push_cast; ring]
      rw [hMden]
      push_cast
      ring
    push_cast
    rw [h1, mul_comm (q.num : ℚ) _, mul_div_mul_left _ _ hM0]
    exact Rat.num_div_den q
  set m := q.num * ((10 : ℤ) ^ q.den / (q.den : ℤ)) with hm
  have hfr : m.natAbs % 10 ^ q.den < 10 ^ q.den := Nat.mod_lt _ (by positivity)
  have he1 : 1 ≤ q.den := q.pos
  by_cases hneg : m < 0
  · have hsign : ratToChars q = '-' :: (natToChars (m.natAbs / 10 ^ q.den) ++
        '.' :: (List.replicate (q.den - (natToChars (m.natAbs % 10 ^ q.den)).length) '0' ++
          natToChars (m.natAbs % 10 ^ q.den))) := by
      rw [ratToChars, ← hm, if_pos hneg]
      simp
    rw [hsign, List.cons_append, parseNumber, if_pos (by simp), List.tail_cons]
    rw [show (natToChars (m.natAbs / 10 ^ q.den) ++
        '.' :: (List.replicate (q.den - (natToChars (m.natAbs % 10 ^ q.den)).length) '0' ++
          natToChars (m.natAbs % 10 ^ q.den))) ++ rest =
      natToChars (m.natAbs / 10 ^ q.den) ++
        '.' :: (List.replicate (q.den - (natToChars (m.natAbs % 10 ^ q.den)).length) '0' ++
          (natToChars (m.natAbs % 10 ^ q.den) ++ rest)) by simp [List.append_assoc]]
    rw [parseUnsigned_decimal _ _ q.den he1 hfr rest hrest]
    show some (Json.rat (-((m.natAbs / 10 ^ q.den : ℕ) + (m.natAbs % 10 ^ q.den : ℕ) /
      (10 : ℚ) ^ q.den)), rest) = some (Json.rat q, rest)
    rw [hkey m.natAbs]
    have hcast : ((m.natAbs : ℕ) : ℚ) = -((m : ℤ) : ℚ) := by
      have h1 : ((m.natAbs : ℕ) : ℤ) = -m := by omega
      calc ((m.natAbs : ℕ) : ℚ) = (((m.natAbs : ℕ) : ℤ) : ℚ) := (Int.cast_natCast _).symm
        _ = ((-m : ℤ) : ℚ) := by rw [h1]
        _ = -((m : ℤ) : ℚ) := by push_cast; ring
    rw [hcast, neg_div, neg_neg, hmain]
  · have hsign : ratToChars q = natToChars (m.natAbs / 10 ^ q.den) ++
        '.' :: (List.replicate (q.den - (natToChars (m.natAbs % 10 ^ q.den)).length) '0' ++
          natToChars (m.natAbs % 10 ^ q.den)) := by
      rw [ratToChars, ← hm, if_neg hneg]
      simp
    rw [hsign]
    obtain ⟨d, ds, hnc, hdig⟩ := natToChars_head_digit (m.natAbs / 10 ^ q.den)
    have hdm : d ≠ '-' := by
      intro hcon
      rw [hcon] at hdig
      exact absurd hdig (by decide)
    rw [parseNumber_not_minus _ d (ds ++
        ('.' :: (List.replicate (q.den - (natToChars (m.natAbs % 10 ^ q.den)).length) '0' ++
          natToChars (m.natAbs % 10 ^ q.den)) ++ rest))
      (by rw [hnc]; simp) hdm]
    rw [show (natToChars (m.natAbs / 10 ^ q.den) ++
        '.' :: (List.replicate (q.den - (natToChars (m.natAbs % 10 ^ q.den)).length) '0' ++
          natToChars (m.natAbs % 10 ^ q.den))) ++ rest =
      natToChars (m.natAbs / 10 ^ q.den) ++
        '.' :: (List.replicate (q.den - (natToChars (m.natAbs % 10 ^ q.den)).length) '0' ++
          (natToChars (m.natAbs % 10 ^ q.den) ++ rest)) by simp [List.append_assoc]]
    rw [parseUnsigned_decimal _ _ q.den he1 hfr rest hrest]
    show some (Json.rat ((m.natAbs / 10 ^ q.den : ℕ) + (m.natAbs % 10 ^ q.den : ℕ) /
      (10 : ℚ) ^ q.den), rest) = some (Json.rat q, rest)
    rw [hkey m.natAbs]
    have hcast : ((m.natAbs : ℕ) : ℚ) = ((m : ℤ) : ℚ) := by
      have h1 : ((m.natAbs : ℕ) : ℤ) = m := by omega
      calc ((m.natAbs : ℕ) : ℚ) = (((m.natAbs : ℕ) : ℤ) : ℚ) := (Int.cast_natCast _).symm
        _ = ((m : ℤ) : ℚ) := by rw [h1]
    rw [hcast, hmain]

theorem skipWs_append_ws (ws cs : List Char) (h : ∀ c ∈ ws, isWsChar c = true) :
    skipWs (ws ++ cs) = skipWs cs := by
  induction ws with
  | nil => rfl
  | cons w tl ih =>
    rw [List.cons_append, skipWs, if_pos (h w (by simp))]
    exact ih (fun c hc => h c (by simp [hc]))

theorem skipWs_not_ws (cs : List Char) (c : Char) (hc : isWsChar c = false) :
    skipWs (c :: cs) = c :: cs := by
  rw [skipWs, if_neg (by simp [hc])]

theorem skipWs_decomp (t u : List Char) (h : skipWs t = u) :
    ∃ ws, t = ws ++ u ∧ ∀ c ∈ ws, isWsChar c = true := by
  induction t generalizing u with
  | nil =>
    rw [skipWs] at h
    exact ⟨[], by simp [h.symm], by simp⟩
  | cons c cs ih =>
    by_cases hw : isWsChar c = true
    · rw [skipWs, if_pos hw] at h
      obtain ⟨ws, hws, hall⟩ := ih u h
      refine ⟨c :: ws, by simp [hws], ?_⟩
      intro x hx
      rcases List.mem_cons.mp hx with rfl | hx
      · exact hw
      · exact hall x hx
    · rw [skipWs, if_neg hw] at h
      exact ⟨[], by simp [h.symm], by simp⟩

theorem takeWhile_append_pred (p : Char → Bool) (ds rest : List Char)
    (hds : ∀ c ∈ ds, p c = true) (hrest : ∀ c, rest.head? = some c → p c = false) :
    (ds ++ rest).takeWhile p = ds ∧ (ds ++ rest).dropWhile p = rest := by
  induction ds with
  | nil =>
    cases rest with
    | nil => simp
    | cons r rs =>
      have hr := hrest r rfl
      simp [List.takeWhile_cons, List.dropWhile_cons, hr]
  | cons d ds ih =>
    have hd := hds d (by simp)
    have := ih (fun c hc => hds c (by simp [hc]))
    simp [List.takeWhile_cons, List.dropWhile_cons, hd, this]

theorem parseString_spec (s : String) (hs : strOk s = true) (rest : List Char) :
    parseStringChars (strToChars s ++ rest) = some (s, rest) := by
  have hq : ∀ c ∈ s.data, (!(c = '"')) = true := by
    intro c hc
    have h1 := List.all_eq_true.mp hs c hc
    simp only [Bool.and_eq_true] at h1
    exact h1.1
  have hqr : ∀ c : Char, ('"' :: rest).head? = some c → (!(c = '"')) = false := by
    intro c hc
    simp at hc
    subst hc
    simp
  rw [strToChars, List.cons_append, parseStringChars, if_pos (by simp), List.tail_cons]
  rw [List.append_assoc]
  show (match ((s.data ++ ('"' :: rest)).dropWhile fun c => !(c = '"')) with
    | '"' :: rest2 =>
        some ((⟨(s.data ++ ('"' :: rest)).takeWhile fun c => !(c = '"')⟩ : String), rest2)
    | _ => none) = some (s, rest)
  obtain ⟨ht, hd⟩ := takeWhile_append_pred (fun c => !(c = '"')) s.data ('"' :: rest) hq hqr
  rw [ht, hd]
  show some ((⟨s.data⟩ : String), rest) = some (s, rest)
  cases s
  rfl

theorem isWsChar_cases (c : Char) (h : isWsChar c = true) :
    c = ' ' ∨ c = '\n' ∨ c = '\t' ∨ c = '\r' := by
  simp only [isWsChar, Bool.or_eq_true, decide_eq_true_eq] at h
  tauto

theorem ws_not_digit_dot (c : Char) (h : isWsChar c = true) :
    isDigit c = false ∧ c ≠ '.' := by
  rcases isWsChar_cases c h with rfl | rfl | rfl | rfl <;> exact ⟨by decide, by decide⟩

theorem isDigit_props (c : Char) (h : isDigit c = true) :
    isWsChar c = false ∧ ∀ d : Char, isDigit d = false → c ≠ d := by
  constructor
  · cases hw : isWsChar c
    · rfl
    · exfalso
      rcases isWsChar_cases c hw with rfl | rfl | rfl | rfl <;> exact absurd h (by decide)
  · intro d hd hc
    subst hc
    rw [h] at hd
    cases hd

theorem intToChars_head (n : ℤ) :
    ∃ d tl, intToChars n = d :: tl ∧ (isDigit d = true ∨ d = '-') := by
  rw [intToChars]
  by_cases hn : n < 0
  · rw [if_pos hn]
    exact ⟨'-', _, rfl, Or.inr rfl⟩
  · rw [if_neg hn]
    obtain ⟨d, ds, hnc, hdig⟩ := natToChars_head_digit n.natAbs
    exact ⟨d, ds, hnc, Or.inl hdig⟩

theorem ratToChars_head (q : ℚ) :
    ∃ d tl, ratToChars q = d :: tl ∧ (isDigit d = true ∨ d = '-') := by
  rw [ratToChars]
  by_cases hn : q.num * ((10 : ℤ) ^ q.den / (q.den : ℤ)) < 0
  · rw [if_pos hn]
    exact ⟨'-', _, rfl, Or.inr rfl⟩
  · rw [if_neg hn, List.nil_append]
    obtain ⟨d, ds, hnc, hdig⟩ :=
      natToChars_head_digit ((q.num * ((10 : ℤ) ^ q.den / (q.den : ℤ))).natAbs / 10 ^ q.den)
    rw [hnc]
    exact ⟨d, _, List.cons_append d ds _, Or.inl hdig⟩

theorem jsonToChars_head (j : Json) (lvl : ℕ) :
    ∃ d tl, jsonToChars j lvl = d :: tl ∧ isWsChar d = false ∧
      d ≠ ']' ∧ d ≠ '\x7d' ∧ d ≠ ',' ∧ d ≠ ':' := by
  have hnum : ∀ d : Char, isDigit d = true ∨ d = '-' →
      isWsChar d = false ∧ d ≠ ']' ∧ d ≠ '\x7d' ∧ d ≠ ',' ∧ d ≠ ':' := by
    intro d hd
    rcases hd with hd | rfl
    · obtain ⟨hws, hne⟩ := isDigit_props d hd
      exact ⟨hws, hne ']' (by decide), hne '\x7d' (by decide), hne ',' (by decide),
        hne ':' (by decide)⟩
    · exact ⟨by decide, by decide, by decide, by decide, by decide⟩
  cases j with
  | null => exact ⟨'n', _, rfl, by decide, by decide, by decide, by decide, by decide⟩
  | bool b =>
    cases b
    · exact ⟨'f', _, rfl, by decide, by decide, by decide, by decide, by decide⟩
    · exact ⟨'t', _, rfl, by decide, by decide, by decide, by decide, by decide⟩
  | int n =>
    obtain ⟨d, tl, hic, hd⟩ := intToChars_head n
    obtain ⟨h1, h2, h3, h4, h5⟩ := hnum d hd
    exact ⟨d, tl, hic, h1, h2, h3, h4, h5⟩
  | rat q =>
    obtain ⟨d, tl, hic, hd⟩ := ratToChars_head q
    obtain ⟨h1, h2, h3, h4, h5⟩ := hnum d hd
    exact ⟨d, tl, hic, h1, h2, h3, h4, h5⟩
  | str s => exact ⟨'"', _, rfl, by decide, by decide, by decide, by decide, by decide⟩
  | arr xs =>
    cases xs with
    | nil => exact ⟨'[', _, rfl, by decide, by decide, by decide, by decide, by decide⟩
    | cons x xs => exact ⟨'[', _, rfl, by decide, by decide, by decide, by decide, by decide⟩
  | obj fs =>
    cases fs with
    | nil => exact ⟨'\x7b', _, rfl, by decide, by decide, by decide, by decide, by decide⟩
    | cons p ps =>
      exact ⟨'\x7b', _, rfl, by decide, by decide, by decide, by decide, by decide⟩

theorem parseValue_succ_eq (fuel : ℕ) (cs : List Char) :
    parseValue (fuel + 1) cs =
      match skipWs cs with
      | [] => none
      | c :: cs2 =>
        if c = '"' then
          match parseStringChars (c :: cs2) with
          | some (s, r) => some (.str s, r)
          | none => none
        else if c = '[' then
          match skipWs cs2 with
          | ']' :: rest => some (.arr [], rest)
          | _ =>
            match parseItems fuel cs2 with
            | some (js, r) => some (.arr js, r)
            | none => none
        else if c = '\x7b' then
          match skipWs cs2 with
          | '\x7d' :: rest => some (.obj [], rest)
          | _ =>
            match parseFields fuel cs2 with
            | some (fs, r) => some (.obj fs, r)
            | none => none
        else if c = 'n' then
          match cs2 with
          | 'u' :: 'l' :: 'l' :: rest => some (.null, rest)
          | _ => none
        else if c = 't' then
          match cs2 with
          | 'r' :: 'u' :: 'e' :: rest => some (.bool true, rest)
          | _ => none
        else if c = 'f' then
          match cs2 with
          | 'a' :: 'l' :: 's' :: 'e' :: rest => some (.bool false, rest)
          | _ => none
        else parseNumber (c :: cs2) := rfl

theorem parseValue_skip (fuel : ℕ) (pre cs : List Char)
    (h : ∀ c ∈ pre, isWsChar c = true) :
    parseValue (fuel + 1) (pre ++ cs) = parseValue (fuel + 1) cs := by
  rw [parseValue_succ_eq, parseValue_succ_eq, skipWs_append_ws pre cs h]

theorem parseValue_cons (fuel : ℕ) (c : Char) (cs2 : List Char)
    (hws : isWsChar c = false) :
    parseValue (fuel + 1) (c :: cs2) =
      (if c = '"' then
        match parseStringChars (c :: cs2) with
        | some (s, r) => some (.str s, r)
        | none => none
      else if c = '[' then
        match skipWs cs2 with
        | ']' :: rest => some (.arr [], rest)
        | _ =>
          match parseItems fuel cs2 with
          | some (js, r) => some (.arr js, r)
          | none => none
      else if c = '\x7b' then
        match skipWs cs2 with
        | '\x7d' :: rest => some (.obj [], rest)
        | _ =>
          match parseFields fuel cs2 with
          | some (fs, r) => some (.obj fs, r)
          | none => none
      else if c = 'n' then
        match cs2 with
        | 'u' :: 'l' :: 'l' :: rest => some (.null, rest)
        | _ => none
      else if c = 't' then
        match cs2 with
        | 'r' :: 'u' :: 'e' :: rest => some (.bool true, rest)
        | _ => none
      else if c = 'f' then
        match cs2 with
        | 'a' :: 'l' :: 's' :: 'e' :: rest => some (.bool false, rest)
        | _ => none
      else parseNumber (c :: cs2)) := by
  rw [parseValue_succ_eq, skipWs_not_ws cs2 c hws]

theorem parseItems_succ_eq (fuel : ℕ) (cs : List Char) :
    parseItems (fuel + 1) cs =
      match parseValue fuel cs with
      | none => none
      | some (j, rest) =>
        match skipWs rest with
        | ',' :: rest2 =>
          match parseItems fuel rest2 with
          | some (js, rest3) => some (j :: js, rest3)
          | none => none
        | ']' :: rest2 => some ([j], rest2)
        | _ => none := rfl

theorem parseFields_succ_eq (fuel : ℕ) (cs : List Char) :
    parseFields (fuel + 1) cs =
      match parseStringChars (skipWs cs) with
      | none => none
      | some (k, rest) =>
        match skipWs rest with
        | ':' :: rest2 =>
          match parseValue fuel rest2 with
          | none => none
          | some (v, rest3) =>
            match skipWs rest3 with
            | ',' :: rest4 =>
              match parseFields fuel rest4 with
              | some (fs, rest5) => some ((k, v) :: fs, rest5)
              | none => none
            | '\x7d' :: rest4 => some ([(k, v)], rest4)
            | _ => none
        | _ => none := rfl

theorem jsize_pos (j : Json) : 1 ≤ jsize j := by
  cases j <;> simp [jsize]

theorem numBoundary_of_close (t rest : List Char) (X : Char)
    (hX : isDigit X = false ∧ X ≠ '.') (h : skipWs t = X :: rest) : numBoundary t := by
  obtain ⟨ws, rfl, hws⟩ := skipWs_decomp t _ h
  intro c hc
  cases ws with
  | nil =>
    simp at hc
    subst hc
    exact hX
  | cons w tl =>
    have hc2 : w = c := by simpa using hc
    rw [← hc2]
    exact ws_not_digit_dot w (hws w (by simp))

theorem parse_print_all : ∀ fuel : ℕ,
    (∀ (j : Json) (lvl : ℕ) (pre rest : List Char),
      jsonOk j = true → jsize j ≤ fuel → (∀ c ∈ pre, isWsChar c = true) →
      (endsDigit j = true → numBoundary rest) →
      parseValue fuel (pre ++ (jsonToChars j lvl ++ rest)) = some (j, rest)) ∧
    (∀ (x : Json) (xs : List Json) (lvl : ℕ) (pre t rest : List Char),
      jsonOk x = true → itemsOk xs = true → 1 + jsize x + jsizeItems xs ≤ fuel →
      (∀ c ∈ pre, isWsChar c = true) → skipWs t = ']' :: rest →
      parseItems fuel (pre ++ (jsonToChars x lvl ++ (itemsToChars xs lvl ++ t))) =
        some (x :: xs, rest)) ∧
    (∀ (k : String) (v : Json) (ps : List (String × Json)) (lvl : ℕ) (pre t rest : List Char),
      strOk k = true → jsonOk v = true → fieldsOk ps = true →
      1 + jsize v + jsizeFields ps ≤ fuel →
      (∀ c ∈ pre, isWsChar c = true) → skipWs t = '\x7d' :: rest →
      parseFields fuel (pre ++ (strToChars k ++ (':' :: ' ' ::
        (jsonToChars v lvl ++ (fieldsToChars ps lvl ++ t))))) = some ((k, v) :: ps, rest)) := by
  have hwsind : ∀ lvl : ℕ, ∀ c ∈ '\n' :: indentChars lvl, isWsChar c = true := by
    intro lvl c hc
    rcases List.mem_cons.mp hc with rfl | hc
    · decide
    · rw [List.eq_of_mem_replicate hc]
      decide
  have hclose : ∀ (lvl : ℕ) (X : Char) (rest : List Char), isWsChar X = false →
      skipWs ('\n' :: (indentChars lvl ++ (X :: rest))) = X :: rest := by
    intro lvl X rest hX
    rw [show ('\n' :: (indentChars lvl ++ (X :: rest))) =
      ('\n' :: indentChars lvl) ++ (X :: rest) from by simp]
    rw [skipWs_append_ws _ _ (hwsind lvl)]
    exact skipWs_not_ws _ X hX
  intro fuel
  induction fuel with
  | zero =>
    refine ⟨?_, ?_, ?_⟩
    · intro j _ _ _ _ hsz _ _
      have := jsize_pos j
      omega
    · intro x xs _ _ _ _ _ _ hsz _ _
      omega
    · intro k v ps _ _ _ _ _ _ _ hsz _ _
      omega
  | succ fuel ih =>
    obtain ⟨ihv, ihi, ihf⟩ := ih
    refine ⟨?_, ?_, ?_⟩
    · -- parseValue
      intro j lvl pre rest hok hsz hpre hbnd
      rw [parseValue_skip fuel pre _ hpre]
      cases j with
      | null =>
        rw [show jsonToChars Json.null lvl = 'n' :: ['u', 'l', 'l'] from rfl,
          List.cons_append, parseValue_cons fuel 'n' _ (by decide)]
        simp [List.cons_append]
      | bool b =>
        cases b
        · rw [show jsonToChars (Json.bool false) lvl = 'f' :: ['a', 'l', 's', 'e'] from rfl,
            List.cons_append, parseValue_cons fuel 'f' _ (by decide)]
          simp [List.cons_append]
        · rw [show jsonToChars (Json.bool true) lvl = 't' :: ['r', 'u', 'e'] from rfl,
            List.cons_append, parseValue_cons fuel 't' _ (by decide)]
          simp [List.cons_append]
      | int n =>
        have hb := hbnd rfl
        have hnd : noDigitHead rest := fun c hc => (hb c hc).1
        have hdot : rest.head? ≠ some '.' := fun hc => (hb '.' hc).2 rfl
        obtain ⟨d, tl, hic, hd⟩ := intToChars_head n
        have hne : ∀ e : Char, isDigit e = false → e ≠ '-' → d ≠ e := by
          intro e he hm hc
          subst hc
          rcases hd with hd | hd
          · rw [hd] at he
            cases he
          · exact hm hd
        have hws : isWsChar d = false := by
          rcases hd with hd | rfl
          · exact (isDigit_props d hd).1
          · decide
        rw [show jsonToChars (Json.int n) lvl = intToChars n from rfl, hic, List.cons_append,
          parseValue_cons fuel d _ hws]
        rw [if_neg (hne '"' (by decide) (by decide)), if_neg (hne '[' (by decide) (by decide)),
          if_neg (hne '\x7b' (by decide) (by decide)), if_neg (hne 'n' (by decide) (by decide)),
          if_neg (hne 't' (by decide) (by decide)), if_neg (hne 'f' (by decide) (by decide))]
        rw [← List.cons_append, ← hic]
        exact parseNumber_int n rest hnd hdot
      | rat q =>
        have hb := hbnd rfl
        have hnd : noDigitHead rest := fun c hc => (hb c hc).1
        have hq : (10 ^ q.den) % q.den = 0 := by
          have h1 : jsonOk (Json.rat q) = decide ((10 ^ q.den) % q.den = 0) := rfl
          rw [h1] at hok
          exact of_decide_eq_true hok
        obtain ⟨d, tl, hic, hd⟩ := ratToChars_head q
        have hne : ∀ e : Char, isDigit e = false → e ≠ '-' → d ≠ e := by
          intro e he hm hc
          subst hc
          rcases hd with hd | hd
          · rw [hd] at he
            cases he
          · exact hm hd
        have hws : isWsChar d = false := by
          rcases hd with hd | rfl
          · exact (isDigit_props d hd).1
          · decide
        rw [show jsonToChars (Json.rat q) lvl = ratToChars q from rfl, hic, List.cons_append,
          parseValue_cons fuel d _ hws]
        rw [if_neg (hne '"' (by decide) (by decide)), if_neg (hne '[' (by decide) (by decide)),
          if_neg (hne '\x7b' (by decide) (by decide)), if_neg (hne 'n' (by decide) (by decide)),
          if_neg (hne 't' (by decide) (by decide)), if_neg (hne 'f' (by decide) (by decide))]
        rw [← List.cons_append, ← hic]
        exact parseNumber_rat q hq rest hnd
      | str s =>
        have hso : strOk s = true := hok
        rw [show jsonToChars (Json.str s) lvl = '"' :: (s.data ++ ['"']) from rfl,
          List.cons_append, parseValue_cons fuel '"' _ (by decide), if_pos rfl]
        rw [show '"' :: ((s.data ++ ['"']) ++ rest) = strToChars s ++ rest from by
          simp [strToChars]]
        rw [parseString_spec s hso rest]
      | arr xs =>
        cases xs with
        | nil =>
          rw [show jsonToChars (Json.arr []) lvl = '[' :: [']'] from rfl, List.cons_append,
            parseValue_cons fuel '[' _ (by decide)]
          rw [if_neg (by decide), if_pos rfl]
          rw [show ([']'] : List Char) ++ rest = ']' :: rest from rfl,
            skipWs_not_ws rest ']' (by decide)]
          rfl
        | cons x xs =>
          have hok2 : jsonOk x = true ∧ itemsOk xs = true := by
            have h1 : jsonOk (Json.arr (x :: xs)) = (jsonOk x && itemsOk xs) := rfl
            rw [h1, Bool.and_eq_true] at hok
            exact hok
          have hsz2 : 1 + jsize x + jsizeItems xs ≤ fuel := by
            have h1 : jsize (Json.arr (x :: xs)) = 1 + (1 + jsize x + jsizeItems xs) := rfl
            omega
          rw [show jsonToChars (Json.arr (x :: xs)) lvl ++ rest =
            '[' :: ('\n' :: (indentChars (lvl + 1) ++ (jsonToChars x (lvl + 1) ++
              (itemsToChars xs (lvl + 1) ++ ('\n' :: (indentChars lvl ++ (']' :: rest)))))))
            from by
              rw [show jsonToChars (Json.arr (x :: xs)) lvl =
                '[' :: '\n' :: (indentChars (lvl + 1) ++ (jsonToChars x (lvl + 1) ++
                  (itemsToChars xs (lvl + 1) ++ ('\n' :: (indentChars lvl ++ [']'])))))
                from rfl]
              simp]
          rw [parseValue_cons fuel '[' _ (by decide), if_neg (by decide), if_pos rfl]
          obtain ⟨d, tl, hjc, hdws, hdrb, hdcb, hdcm, hdcl⟩ := jsonToChars_head x (lvl + 1)
          have hskip : skipWs ('\n' :: (indentChars (lvl + 1) ++ (jsonToChars x (lvl + 1) ++
              (itemsToChars xs (lvl + 1) ++ ('\n' :: (indentChars lvl ++ (']' :: rest))))))) =
              d :: (tl ++ (itemsToChars xs (lvl + 1) ++
                ('\n' :: (indentChars lvl ++ (']' :: rest))))) := by
            rw [show ('\n' :: (indentChars (lvl + 1) ++ (jsonToChars x (lvl + 1) ++
                (itemsToChars xs (lvl + 1) ++ ('\n' :: (indentChars lvl ++ (']' :: rest))))))) =
              ('\n' :: indentChars (lvl + 1)) ++ (jsonToChars x (lvl + 1) ++
                (itemsToChars xs (lvl + 1) ++ ('\n' :: (indentChars lvl ++ (']' :: rest)))))
              from by simp]
            rw [skipWs_append_ws _ _ (hwsind (lvl + 1)), hjc]
            rw [show ((d :: tl) ++ (itemsToChars xs (lvl + 1) ++
                ('\n' :: (indentChars lvl ++ (']' :: rest))))) =
              d :: (tl ++ (itemsToChars xs (lvl + 1) ++
                ('\n' :: (indentChars lvl ++ (']' :: rest))))) from by simp]
            exact skipWs_not_ws _ d hdws
          rw [hskip]
          split
          · rename_i rest2 heq
            injection heq with heq1 heq2
            exact absurd heq1 hdrb
          · rw [show ('\n' :: (indentChars (lvl + 1) ++ (jsonToChars x (lvl + 1) ++
                (itemsToChars xs (lvl + 1) ++ ('\n' :: (indentChars lvl ++ (']' :: rest))))))) =
              ('\n' :: indentChars (lvl + 1)) ++ (jsonToChars x (lvl + 1) ++
                (itemsToChars xs (lvl + 1) ++ ('\n' :: (indentChars lvl ++ (']' :: rest)))))
              from by simp]
            rw [ihi x xs (lvl + 1) _ _ rest hok2.1 hok2.2 hsz2 (hwsind (lvl + 1))
              (hclose lvl ']' rest (by decide))]
      | obj fs =>
        cases fs with
        | nil =>
          rw [show jsonToChars (Json.obj []) lvl = '\x7b' :: ['\x7d'] from rfl, List.cons_append,
            parseValue_cons fuel '\x7b' _ (by decide)]
          rw [if_neg (by decide), if_neg (by decide), if_pos rfl]
          rw [show (['\x7d'] : List Char) ++ rest = '\x7d' :: rest from rfl,
            skipWs_not_ws rest '\x7d' (by decide)]
          rfl
        | cons p ps =>
          have hok2 : strOk p.1 = true ∧ jsonOk p.2 = true ∧ fieldsOk ps = true := by
            have h1 : jsonOk (Json.obj (p :: ps)) =
              (strOk p.1 && jsonOk p.2 && fieldsOk ps) := rfl
            rw [h1] at hok
            simp only [Bool.and_eq_true] at hok
            exact ⟨hok.1.1, hok.1.2, hok.2⟩
          have hsz2 : 1 + jsize p.2 + jsizeFields ps ≤ fuel := by
            have h1 : jsize (Json.obj (p :: ps)) = 1 + (1 + jsize p.2 + jsizeFields ps) := rfl
            omega
          rw [show jsonToChars (Json.obj (p :: ps)) lvl ++ rest =
            '\x7b' :: ('\n' :: (indentChars (lvl + 1) ++ (strToChars p.1 ++ (':' :: ' ' ::
              (jsonToChars p.2 (lvl + 1) ++ (fieldsToChars ps (lvl + 1) ++
                ('\n' :: (indentChars lvl ++ ('\x7d' :: rest)))))))))
            from by
              rw [show jsonToChars (Json.obj (p :: ps)) lvl =
                '\x7b' :: '\n' :: (indentChars (lvl + 1) ++ (strToChars p.1 ++ (':' :: ' ' ::
                  (jsonToChars p.2 (lvl + 1) ++ (fieldsToChars ps (lvl + 1) ++
                    ('\n' :: (indentChars lvl ++ ['\x7d'])))))))
                from rfl]
              simp]
          rw [parseValue_cons fuel '\x7b' _ (by decide)]
          rw [if_neg (by decide), if_neg (by decide), if_pos rfl]
          have hskip : skipWs ('\n' :: (indentChars (lvl + 1) ++ (strToChars p.1 ++ (':' :: ' ' ::
              (jsonToChars p.2 (lvl + 1) ++ (fieldsToChars ps (lvl + 1) ++
                ('\n' :: (indentChars lvl ++ ('\x7d' :: rest))))))))) =
              '"' :: (p.1.data ++ ('"' :: (':' :: ' ' ::
                (jsonToChars p.2 (lvl + 1) ++ (fieldsToChars ps (lvl + 1) ++
                  ('\n' :: (indentChars lvl ++ ('\x7d' :: rest)))))))) := by
            rw [show ('\n' :: (indentChars (lvl + 1) ++ (strToChars p.1 ++ (':' :: ' ' ::
                (jsonToChars p.2 (lvl + 1) ++ (fieldsToChars ps (lvl + 1) ++
                  ('\n' :: (indentChars lvl ++ ('\x7d' :: rest))))))))) =
              ('\n' :: indentChars (lvl + 1)) ++ ('"' :: (p.1.data ++ ('"' :: (':' :: ' ' ::
                (jsonToChars p.2 (lvl + 1) ++ (fieldsToChars ps (lvl + 1) ++
                  ('\n' :: (indentChars lvl ++ ('\x7d' :: rest)))))))))
              from by simp [strToChars]]
            rw [skipWs_append_ws _ _ (hwsind (lvl + 1))]
            exact skipWs_not_ws _ '"' (by decide)
          rw [hskip]
          split
          · rename_i rest2 heq
            injection heq with heq1 heq2
            exact absurd heq1.symm (by decide)
          · rw [show ('\n' :: (indentChars (lvl + 1) ++ (strToChars p.1 ++ (':' :: ' ' ::
                (jsonToChars p.2 (lvl + 1) ++ (fieldsToChars ps (lvl + 1) ++
                  ('\n' :: (indentChars lvl ++ ('\x7d' :: rest))))))))) =
              ('\n' :: indentChars (lvl + 1)) ++ (strToChars p.1 ++ (':' :: ' ' ::
                (jsonToChars p.2 (lvl + 1) ++ (fieldsToChars ps (lvl + 1) ++
                  ('\n' :: (indentChars lvl ++ ('\x7d' :: rest)))))))
              from by simp]
            rw [ihf p.1 p.2 ps (lvl + 1) _ _ rest hok2.1 hok2.2.1 hok2.2.2 hsz2
              (hwsind (lvl + 1)) (hclose lvl '\x7d' rest (by decide))]
    · -- parseItems
      intro x xs lvl pre t rest hokx hokxs hsz hpre ht
      rw [parseItems_succ_eq]
      have hbx : endsDigit x = true → numBoundary (itemsToChars xs lvl ++ t) := by
        intro _
        cases xs with
        | nil =>
          rw [show itemsToChars [] lvl = [] from rfl, List.nil_append]
          exact numBoundary_of_close t rest ']' (by constructor <;> decide) ht
        | cons y ys =>
          intro c hc
          have hcw : ',' = c := by
            rw [show itemsToChars (y :: ys) lvl = ',' :: '\n' :: (indentChars lvl ++
              (jsonToChars y lvl ++ itemsToChars ys lvl)) from rfl] at hc
            simpa using hc
          rw [← hcw]
          constructor <;> decide
      rw [ihv x lvl pre _ hokx (by omega) hpre hbx]
      show (match skipWs (itemsToChars xs lvl ++ t) with
        | ',' :: rest2 =>
          match parseItems fuel rest2 with
          | some (js, rest3) => some (x :: js, rest3)
          | none => none
        | ']' :: rest2 => some ([x], rest2)
        | _ => none) = some (x :: xs, rest)
      cases xs with
      | nil =>
        rw [show itemsToChars [] lvl ++ t = t from by
          rw [show itemsToChars [] lvl = [] from rfl, List.nil_append], ht]
        rfl
      | cons y ys =>
        have hok2 : jsonOk y = true ∧ itemsOk ys = true := by
          have h1 : itemsOk (y :: ys) = (jsonOk y && itemsOk ys) := rfl
          rw [h1, Bool.and_eq_true] at hokxs
          exact hokxs
        have hszy : 1 + jsize y + jsizeItems ys ≤ fuel := by
          have h1 : jsizeItems (y :: ys) = 1 + jsize y + jsizeItems ys := rfl
          omega
        rw [show itemsToChars (y :: ys) lvl ++ t =
          ',' :: ('\n' :: (indentChars lvl ++ (jsonToChars y lvl ++ (itemsToChars ys lvl ++ t))))
          from by
            rw [show itemsToChars (y :: ys) lvl = ',' :: '\n' :: (indentChars lvl ++
              (jsonToChars y lvl ++ itemsToChars ys lvl)) from rfl]
            simp]
        rw [skipWs_not_ws _ ',' (by decide)]
        show (match parseItems fuel
            ('\n' :: (indentChars lvl ++ (jsonToChars y lvl ++ (itemsToChars ys lvl ++ t)))) with
          | some (js, rest3) => some (x :: js, rest3)
          | none => none) = some (x :: y :: ys, rest)
        rw [show ('\n' :: (indentChars lvl ++ (jsonToChars y lvl ++ (itemsToChars ys lvl ++ t)))) =
          ('\n' :: indentChars lvl) ++ (jsonToChars y lvl ++ (itemsToChars ys lvl ++ t))
          from by simp]
        rw [ihi y ys lvl _ t rest hok2.1 hok2.2 hszy (hwsind lvl) ht]
    · -- parseFields
      intro k v ps lvl pre t rest hokk hokv hokps hsz hpre ht
      rw [parseFields_succ_eq, skipWs_append_ws pre _ hpre]
      rw [show strToChars k ++ (':' :: ' ' ::
          (jsonToChars v lvl ++ (fieldsToChars ps lvl ++ t))) =
        '"' :: (k.data ++ ('"' :: (':' :: ' ' ::
          (jsonToChars v lvl ++ (fieldsToChars ps lvl ++ t))))) from by simp [strToChars]]
      rw [skipWs_not_ws _ '"' (by decide)]
      rw [show ('"' :: (k.data ++ ('"' :: (':' :: ' ' ::
          (jsonToChars v lvl ++ (fieldsToChars ps lvl ++ t)))))) =
        strToChars k ++ (':' :: ' ' :: (jsonToChars v lvl ++ (fieldsToChars ps lvl ++ t)))
        from by simp [strToChars]]
      rw [parseString_spec k hokk _]
      show (match skipWs (':' :: ' ' :: (jsonToChars v lvl ++ (fieldsToChars ps lvl ++ t))) with
        | ':' :: rest2 =>
          match parseValue fuel rest2 with
          | none => none
          | some (v2, rest3) =>
            match skipWs rest3 with
            | ',' :: rest4 =>
              match parseFields fuel rest4 with
              | some (fs, rest5) => some ((k, v2) :: fs, rest5)
              | none => none
            | '\x7d' :: rest4 => some ([(k, v2)], rest4)
            | _ => none
        | _ => none) = some ((k, v) :: ps, rest)
      rw [skipWs_not_ws _ ':' (by decide)]
      show (match parseValue fuel (' ' :: (jsonToChars v lvl ++ (fieldsToChars ps lvl ++ t))) with
        | none => none
        | some (v2, rest3) =>
          match skipWs rest3 with
          | ',' :: rest4 =>
            match parseFields fuel rest4 with
            | some (fs, rest5) => some ((k, v2) :: fs, rest5)
            | none => none
          | '\x7d' :: rest4 => some ([(k, v2)], rest4)
          | _ => none) = some ((k, v) :: ps, rest)
      have hbv : endsDigit v = true → numBoundary (fieldsToChars ps lvl ++ t) := by
        intro _
        cases ps with
        | nil =>
          rw [show fieldsToChars [] lvl = [] from rfl, List.nil_append]
          exact numBoundary_of_close t rest '\x7d' (by constructor <;> decide) ht
        | cons q qs =>
          intro c hc
          have hcw : ',' = c := by
            rw [show fieldsToChars (q :: qs) lvl = ',' :: '\n' :: (indentChars lvl ++
              (strToChars q.1 ++ (':' :: ' ' ::
                (jsonToChars q.2 lvl ++ fieldsToChars qs lvl)))) from rfl] at hc
            simpa using hc
          rw [← hcw]
          constructor <;> decide
      rw [show (' ' :: (jsonToChars v lvl ++ (fieldsToChars ps lvl ++ t))) =
        [' '] ++ (jsonToChars v lvl ++ (fieldsToChars ps lvl ++ t)) from rfl]
      rw [ihv v lvl [' '] _ hokv (by omega)
        (by intro c hc; simp at hc; subst hc; decide) hbv]
      show (match skipWs (fieldsToChars ps lvl ++ t) with
        | ',' :: rest4 =>
          match parseFields fuel rest4 with
          | some (fs, rest5) => some ((k, v) :: fs, rest5)
          | none => none
        | '\x7d' :: rest4 => some ([(k, v)], rest4)
        | _ => none) = some ((k, v) :: ps, rest)
      cases ps with
      | nil =>
        rw [show fieldsToChars [] lvl ++ t = t from by
          rw [show fieldsToChars [] lvl = [] from rfl, List.nil_append], ht]
        rfl
      | cons q qs =>
        have hok2 : strOk q.1 = true ∧ jsonOk q.2 = true ∧ fieldsOk qs = true := by
          have h1 : fieldsOk (q :: qs) = (strOk q.1 && jsonOk q.2 && fieldsOk qs) := rfl
          rw [h1] at hokps
          simp only [Bool.and_eq_true] at hokps
          exact ⟨hokps.1.1, hokps.1.2, hokps.2⟩
        have hszq : 1 + jsize q.2 + jsizeFields qs ≤ fuel := by
          have h1 : jsizeFields (q :: qs) = 1 + jsize q.2 + jsizeFields qs := rfl
          omega
        rw [show fieldsToChars (q :: qs) lvl ++ t =
          ',' :: ('\n' :: (indentChars lvl ++ (strToChars q.1 ++ (':' :: ' ' ::
            (jsonToChars q.2 lvl ++ (fieldsToChars qs lvl ++ t))))))
          from by
            rw [show fieldsToChars (q :: qs) lvl = ',' :: '\n' :: (indentChars lvl ++
              (strToChars q.1 ++ (':' :: ' ' ::
                (jsonToChars q.2 lvl ++ fieldsToChars qs lvl)))) from rfl]
            simp]
        rw [skipWs_not_ws _ ',' (by decide)]
        show (match parseFields fuel
            ('\n' :: (indentChars lvl ++ (strToChars q.1 ++ (':' :: ' ' ::
              (jsonToChars q.2 lvl ++ (fieldsToChars qs lvl ++ t)))))) with
          | some (fs, rest5) => some ((k, v) :: fs, rest5)
          | none => none) = some ((k, v) :: q :: qs, rest)
        rw [show ('\n' :: (indentChars lvl ++ (strToChars q.1 ++ (':' :: ' ' ::
            (jsonToChars q.2 lvl ++ (fieldsToChars qs lvl ++ t)))))) =
          ('\n' :: indentChars lvl) ++ (strToChars q.1 ++ (':' :: ' ' ::
            (jsonToChars q.2 lvl ++ (fieldsToChars qs lvl ++ t))))
          from by simp]
        rw [ihf q.1 q.2 qs lvl _ t rest hok2.1 hok2.2.1 hok2.2.2 hszq (hwsind lvl) ht]

theorem jsize_le_length : ∀ n : ℕ,
    (∀ (j : Json) (lvl : ℕ), jsize j ≤ n → jsize j ≤ (jsonToChars j lvl).length) ∧
    (∀ (xs : List Json) (lvl : ℕ), jsizeItems xs ≤ n →
      jsizeItems xs ≤ (itemsToChars xs lvl).length) ∧
    (∀ (fs : List (String × Json)) (lvl : ℕ), jsizeFields fs ≤ n →
      jsizeFields fs ≤ (fieldsToChars fs lvl).length) := by
  intro n
  induction n with
  | zero =>
    refine ⟨?_, ?_, ?_⟩
    · intro j _ hsz
      have := jsize_pos j
      omega
    · intro xs _ hsz
      cases xs with
      | nil => simp [jsizeItems]
      | cons x xs =>
        rw [show jsizeItems (x :: xs) = 1 + jsize x + jsizeItems xs from rfl] at hsz
        omega
    · intro fs _ hsz
      cases fs with
      | nil => simp [jsizeFields]
      | cons p ps =>
        rw [show jsizeFields (p :: ps) = 1 + jsize p.2 + jsizeFields ps from rfl] at hsz
        omega
  | succ n ih =>
    obtain ⟨ihv, ihi, ihf⟩ := ih
    refine ⟨?_, ?_, ?_⟩
    · intro j lvl hsz
      cases j with
      | null => simp [jsize, jsonToChars]
      | bool b => cases b <;> simp [jsize, jsonToChars]
      | int m =>
        obtain ⟨d, tl, hic, _⟩ := intToChars_head m
        rw [show jsize (Json.int m) = 1 from rfl,
          show jsonToChars (Json.int m) lvl = intToChars m from rfl, hic]
        simp
      | rat q =>
        obtain ⟨d, tl, hic, _⟩ := ratToChars_head q
        rw [show jsize (Json.rat q) = 1 from rfl,
          show jsonToChars (Json.rat q) lvl = ratToChars q from rfl, hic]
        simp
      | str s =>
        rw [show jsize (Json.str s) = 1 from rfl,
          show jsonToChars (Json.str s) lvl = '"' :: (s.data ++ ['"']) from rfl]
        simp
      | arr xs =>
        cases xs with
        | nil =>
          rw [show jsize (Json.arr []) = 1 from rfl]
          simp [jsonToChars]
        | cons x xs =>
          have h1 : jsize (Json.arr (x :: xs)) = 1 + (1 + jsize x + jsizeItems xs) := rfl
          have h2 : jsize x ≤ n := by
            rw [h1] at hsz
            omega
          have h3 : jsizeItems xs ≤ n := by
            rw [h1] at hsz
            omega
          have hx := ihv x (lvl + 1) h2
          have hxs := ihi xs (lvl + 1) h3
          rw [h1, show jsonToChars (Json.arr (x :: xs)) lvl =
            '[' :: '\n' :: (indentChars (lvl + 1) ++ (jsonToChars x (lvl + 1) ++
              (itemsToChars xs (lvl + 1) ++ ('\n' :: (indentChars lvl ++ [']'])))))
            from rfl]
          simp only [List.length_cons, List.length_append, indentChars,
            List.length_replicate, List.length_singleton]
          omega
      | obj fs =>
        cases fs with
        | nil =>
          rw [show jsize (Json.obj []) = 1 from rfl]
          simp [jsonToChars]
        | cons p ps =>
          have h1 : jsize (Json.obj (p :: ps)) = 1 + (1 + jsize p.2 + jsizeFields ps) := rfl
          have h2 : jsize p.2 ≤ n := by
            rw [h1] at hsz
            omega
          have h3 : jsizeFields ps ≤ n := by
            rw [h1] at hsz
            omega
          have hx := ihv p.2 (lvl + 1) h2
          have hxs := ihf ps (lvl + 1) h3
          rw [h1, show jsonToChars (Json.obj (p :: ps)) lvl =
            '\x7b' :: '\n' :: (indentChars (lvl + 1) ++ (strToChars p.1 ++ (':' :: ' ' ::
              (jsonToChars p.2 (lvl + 1) ++ (fieldsToChars ps (lvl + 1) ++
                ('\n' :: (indentChars lvl ++ ['\x7d'])))))))
            from rfl, strToChars]
          simp only [List.length_cons, List.length_append, indentChars,
            List.length_replicate, List.length_singleton]
          omega
    · intro xs lvl hsz
      cases xs with
      | nil => simp [jsizeItems]
      | cons x xs =>
        have h1 : jsizeItems (x :: xs) = 1 + jsize x + jsizeItems xs := rfl
        have h2 : jsize x ≤ n := by
          rw [h1] at hsz
          omega
        have h3 : jsizeItems xs ≤ n := by
          rw [h1] at hsz
          omega
        have hx := ihv x lvl h2
        have hxs := ihi xs lvl h3
        rw [h1, show itemsToChars (x :: xs) lvl = ',' :: '\n' :: (indentChars lvl ++
          (jsonToChars x lvl ++ itemsToChars xs lvl)) from rfl]
        simp only [List.length_cons, List.length_append, indentChars, List.length_replicate]
        omega
    · intro fs lvl hsz
      cases fs with
      | nil => simp [jsizeFields]
      | cons p ps =>
        have h1 : jsizeFields (p :: ps) = 1 + jsize p.2 + jsizeFields ps := rfl
        have h2 : jsize p.2 ≤ n := by
          rw [h1] at hsz
          omega
        have h3 : jsizeFields ps ≤ n := by
          rw [h1] at hsz
          omega
        have hx := ihv p.2 lvl h2
        have hxs := ihf ps lvl h3
        rw [h1, show fieldsToChars (p :: ps) lvl = ',' :: '\n' :: (indentChars lvl ++
          (strToChars p.1 ++ (':' :: ' ' ::
            (jsonToChars p.2 lvl ++ fieldsToChars ps lvl)))) from rfl, strToChars]
        simp only [List.length_cons, List.length_append, indentChars, List.length_replicate]
        omega

theorem parse_serialize (j : Json) (h : jsonOk j = true) :
    parseJsonDoc (serializeJson j) = some j := by
  have hlen : jsize j ≤ (jsonToChars j 0).length + 1 := by
    have := (jsize_le_length (jsize j)).1 j 0 le_rfl
    omega
  have hmain := (parse_print_all ((jsonToChars j 0).length + 1)).1 j 0 [] [] h hlen
    (by simp) (by intro _ c hc; simp at hc)
  rw [List.nil_append, List.append_nil] at hmain
  rw [parseJsonDoc, show (serializeJson j).length = (jsonToChars j 0).length from rfl,
    show (serializeJson j).data = jsonToChars j 0 from rfl, hmain]
  rfl

/-- C4: the summary document written at line 214 round-trips through
persistence: serializing the summary object as indented JSON text and
re-parsing that text yields the same JSON value, and extracting the fields
of that value reproduces exactly the totalCount, the per-bucket counts,
the commercial-filter counts and the top-N max/median/mean/min statistics
that were computed in memory before serialization. -/
theorem summary_roundtrip (s : Summary) (wf : jsonOk (encodeSummary s) = true) :
    parseJsonDoc (serializeJson (encodeSummary s)) = some (encodeSummary s) ∧
    decodeSummary (encodeSummary s) = some s :=
  ⟨parse_serialize _ wf, by
    simp [decodeSummary, encodeSummary, Json.lookup, List.lookup,
      decodeList_encodeBucket, decodeList_encodeCommercial, decodeStats_encodeStats]⟩

/-- Witness for C4 at a concrete summary with one bucket, one commercial
record and half-integer median. -/
theorem summary_roundtrip_witness :
    parseJsonDoc (serializeJson (encodeSummary demoSummary)) =
      some (encodeSummary demoSummary) ∧
    decodeSummary (encodeSummary demoSummary) = some demoSummary :=
  summary_roundtrip demoSummary (by decide)
